import Mathlib

/-!
# DataTamer type model: a verification development

Shallow embedding of `data_tamer/src/types.cpp` and `include/data_tamer/types.hpp`.

Conventions of the embedding:

* `std::string` is a Lean `String`; `std::less<std::string>` is the lexicographic order on the
  character sequence.
* A `std::ostream` is the text written to it so far; `os << x` appends the text of `x`.
* Fixed-width unsigned integers are `Nat`, reduced `% 2 ^ w` where the C++ arithmetic wraps;
  signed integers are `Int`; floating-point numbers are carried as their IEEE bit pattern.
* A buffer behind a `const void*` is the list of bytes that may be read through it; reading past
  its end is undefined behaviour and is reported as `none`.
* The host is little-endian with `sizeof(bool) = sizeof(char) = 1`, `sizeof(float) = 4` and
  `sizeof(double) = 8`.
* The value reference and the channel (`registerValue`, `setEnabled`, `unregister`,
  `takeSnapshot`) are not among the sources; their definitions follow the specification and say
  so in their documentation.
-/

namespace DataTamer

/-! ## Definitions -/

/-- The constant `SCHEMA_VERSION` of `types.hpp`. -/
def SCHEMA_VERSION : Int := 3

/-- The enumeration `BasicType` of `types.hpp`. -/
inductive BasicType where
  | BOOL
  | CHAR
  | INT8
  | UINT8
  | INT16
  | UINT16
  | INT32
  | UINT32
  | INT64
  | UINT64
  | FLOAT32
  | FLOAT64
  | OTHER
  deriving DecidableEq, Repr

/-- The constant `TypesCount` of `types.hpp`. -/
def TypesCount : Nat := 13

/-- The conversion `static_cast<size_t>(type)`: the ordinal of an enumerator. -/
def BasicType.toIndex : BasicType → Nat
  | .BOOL => 0
  | .CHAR => 1
  | .INT8 => 2
  | .UINT8 => 3
  | .INT16 => 4
  | .UINT16 => 5
  | .INT32 => 6
  | .UINT32 => 7
  | .INT64 => 8
  | .UINT64 => 9
  | .FLOAT32 => 10
  | .FLOAT64 => 11
  | .OTHER => 12

/-- The conversion `static_cast<BasicType>(i)`, used by the source only for `i < TypesCount`. -/
def BasicType.ofIndex : Nat → BasicType
  | 0 => .BOOL
  | 1 => .CHAR
  | 2 => .INT8
  | 3 => .UINT8
  | 4 => .INT16
  | 5 => .UINT16
  | 6 => .INT32
  | 7 => .UINT32
  | 8 => .INT64
  | 9 => .UINT64
  | 10 => .FLOAT32
  | 11 => .FLOAT64
  | _ => .OTHER

/-- The table `kNames` of `types.cpp`. -/
def kNames : List String :=
  [ "bool", "char",
    "int8", "uint8",
    "int16", "uint16",
    "int32", "uint32",
    "int64", "uint64",
    "float32", "float64",
    "other" ]

/-- The function `ToStr`: `kNames[static_cast<size_t>(type)]`. -/
def ToStr (type : BasicType) : String :=
  kNames.get ⟨type.toIndex, by cases type <;> decide⟩

/-- The assignment `map[key] = value` on a `std::unordered_map`, kept as an association list with
one entry per key. -/
def unorderedAssign {β : Type} (map : List (String × β)) (key : String) (value : β) :
    List (String × β) :=
  match map with
  | [] => [(key, value)]
  | (k, v) :: rest =>
    if k = key then (k, value) :: rest else (k, v) :: unorderedAssign rest key value

/-- The lookup `map.find(key)` on a `std::unordered_map`; `none` stands for `map.end()`. -/
def unorderedFind {β : Type} (map : List (String × β)) (key : String) : Option β :=
  match map with
  | [] => none
  | (k, v) :: rest => if k = key then some v else unorderedFind rest key

/-- The static table `kMap` built by the lambda inside `FromStr`. -/
def kMap : List (String × BasicType) :=
  (List.range TypesCount).foldl
    (fun map i =>
      let type := BasicType.ofIndex i
      unorderedAssign map (ToStr type) type)
    []

/-- The function `FromStr` of `types.cpp`. -/
def FromStr (str : String) : BasicType :=
  match unorderedFind kMap str with
  | none => BasicType.OTHER
  | some second => second

/-- The table `kSizes` inside `SizeOf`. -/
def kSizes : List Nat :=
  [ 1, 1,
    1, 1,
    2, 2, 4, 4, 8, 8,
    4, 8, 0 ]

/-- The function `SizeOf`: `kSizes[static_cast<size_t>(type)]`. -/
def SizeOf (type : BasicType) : Nat :=
  kSizes.get ⟨type.toIndex, by cases type <;> decide⟩

/-- One byte of memory. -/
abbrev Byte := Fin 256

/-- The variant `VarNumber` of `types.hpp`, one constructor per alternative, in the order of the
declaration. Integers carry their value, `char` its code unit (its signedness is left to the
implementation), `float` and `double` their bit pattern. -/
inductive VarNumber where
  | bool (v : Bool)
  | char (v : Nat)
  | int8 (v : Int)
  | uint8 (v : Nat)
  | int16 (v : Int)
  | uint16 (v : Nat)
  | int32 (v : Int)
  | uint32 (v : Nat)
  | int64 (v : Int)
  | uint64 (v : Nat)
  | float (bits : Nat)
  | double (bits : Nat)
  deriving DecidableEq, Repr

/-- The value is one the C++ type of the alternative can hold. -/
def VarNumber.inRange : VarNumber → Prop
  | .bool _ => True
  | .char v => v < 2 ^ 8
  | .int8 v => -(2 ^ 7) ≤ v ∧ v < 2 ^ 7
  | .uint8 v => v < 2 ^ 8
  | .int16 v => -(2 ^ 15) ≤ v ∧ v < 2 ^ 15
  | .uint16 v => v < 2 ^ 16
  | .int32 v => -(2 ^ 31) ≤ v ∧ v < 2 ^ 31
  | .uint32 v => v < 2 ^ 32
  | .int64 v => -(2 ^ 63) ≤ v ∧ v < 2 ^ 63
  | .uint64 v => v < 2 ^ 64
  | .float bits => bits < 2 ^ 32
  | .double bits => bits < 2 ^ 64

instance (v : VarNumber) : Decidable v.inRange := by
  cases v <;> unfold VarNumber.inRange <;> infer_instance

/-- The template `GetBasicType<T>` of `types.hpp`, applied to the type of the alternative held. -/
def GetBasicType : VarNumber → BasicType
  | .bool _ => .BOOL
  | .char _ => .CHAR
  | .int8 _ => .INT8
  | .uint8 _ => .UINT8
  | .int16 _ => .INT16
  | .uint16 _ => .UINT16
  | .int32 _ => .INT32
  | .uint32 _ => .UINT32
  | .uint64 _ => .UINT64
  | .int64 _ => .INT64
  | .float _ => .FLOAT32
  | .double _ => .FLOAT64

/-- The number a little-endian host reads from a sequence of bytes. -/
def leValue : List Byte → Nat
  | [] => 0
  | b :: bs => b.val + 256 * leValue bs

/-- The value of a two's complement bit pattern of `w` bits. -/
def toSigned (w : Nat) (bits : Nat) : Int :=
  if bits < 2 ^ (w - 1) then (bits : Int) else (bits : Int) - 2 ^ w

/-- The template `DeserializeImpl<T>`: `memcpy(&var, data, sizeof(T))`. The result is the object
representation of `var` as a number of `8 * sizeof(T)` bits. -/
def DeserializeImpl (sizeofT : Nat) (data : List Byte) : Option Nat :=
  if sizeofT ≤ data.length then some (leValue (data.take sizeofT)) else none

/-- The function `DeserializeAsVarType` of `types.cpp`. Each case passes `sizeof(T)` of its own
C++ type to `DeserializeImpl`. A `bool` whose byte is neither 0 nor 1 has no value. The `OTHER`
case returns a `double` holding the quiet NaN `0x7FF8000000000000`. The `return {}` after the
switch is not reached for any of the 13 enumerators. -/
def DeserializeAsVarType (type : BasicType) (data : List Byte) : Option VarNumber :=
  match type with
  | .BOOL => (DeserializeImpl 1 data).bind fun bits =>
      if bits = 0 then some (.bool false) else if bits = 1 then some (.bool true) else none
  | .CHAR => (DeserializeImpl 1 data).map fun bits => .char bits
  | .INT8 => (DeserializeImpl 1 data).map fun bits => .int8 (toSigned 8 bits)
  | .UINT8 => (DeserializeImpl 1 data).map fun bits => .uint8 bits
  | .INT16 => (DeserializeImpl 2 data).map fun bits => .int16 (toSigned 16 bits)
  | .UINT16 => (DeserializeImpl 2 data).map fun bits => .uint16 bits
  | .INT32 => (DeserializeImpl 4 data).map fun bits => .int32 (toSigned 32 bits)
  | .UINT32 => (DeserializeImpl 4 data).map fun bits => .uint32 bits
  | .INT64 => (DeserializeImpl 8 data).map fun bits => .int64 (toSigned 64 bits)
  | .UINT64 => (DeserializeImpl 8 data).map fun bits => .uint64 bits
  | .FLOAT32 => (DeserializeImpl 4 data).map fun bits => .float bits
  | .FLOAT64 => (DeserializeImpl 8 data).map fun bits => .double bits
  | .OTHER => some (.double 0x7FF8000000000000)

/-- The object representation of the value held, as a number. -/
def VarNumber.bits : VarNumber → Nat
  | .bool v => if v then 1 else 0
  | .char v => v
  | .int8 v => (v % 2 ^ 8).toNat
  | .uint8 v => v
  | .int16 v => (v % 2 ^ 16).toNat
  | .uint16 v => v
  | .int32 v => (v % 2 ^ 32).toNat
  | .uint32 v => v
  | .int64 v => (v % 2 ^ 64).toNat
  | .uint64 v => v
  | .float bits => bits
  | .double bits => bits

/-- The `n` low-order bytes of a number, least significant first. -/
def leBytes : Nat → Nat → List Byte
  | 0, _ => []
  | n + 1, v => ⟨v % 256, Nat.mod_lt v (by decide)⟩ :: leBytes n (v / 256)

/-- Modelled from the spec: `ValuePtr::serialize` for a scalar, which is not among the sources.
Section 4.2 of the specification gives the wire form of a scalar of type `B` as `SizeOf(B)` raw
bytes, little-endian on all architectures. -/
def serializeScalar (v : VarNumber) : List Byte :=
  leBytes (SizeOf (GetBasicType v)) v.bits

/-- The abstract class `CustomTypeInfo` of `types.hpp`. A null `typeSchema()` is `none`; the
instance behind `const void* src_instance` is given by its bytes. -/
structure CustomTypeInfo where
  /-- name of the type, to be written in the schema string -/
  typeName : String
  /-- optional custom schema of the type -/
  typeSchema : Option String := none
  /-- size in bytes of the serialized object -/
  serializedSize : List Byte → Nat
  /-- serialize an object into a buffer -/
  serialize : List Byte → List Byte

/-- The structure `Schema::Field` of `types.hpp`; `array_size` is a `uint16_t`, and an empty
`std::shared_ptr` is `none`. -/
structure Schema.Field where
  name : String
  type : BasicType
  is_vector : Bool := false
  array_size : Nat := 0
  custom_type : Option CustomTypeInfo := none

/-- The structure `Schema` of `types.hpp`; `hash` is a `uint64_t`. -/
structure Schema where
  fields : List Schema.Field := []
  hash : Nat := 0
  channel_name : String := ""

/-- The four `std::hash` specialisations used by `AddFieldToHash`. The standard leaves their
values to the implementation, so they are parameters; each result is a `size_t`. -/
structure Hashers where
  str_hasher : String → Nat
  type_hasher : BasicType → Nat
  bool_hasher : Bool → Nat
  uint_hasher : Nat → Nat

/-- The lambda `combine` inside `AddFieldToHash`, as the new value of the captured `hash`:
`hash ^= hasher(val) + 0x9e3779b9 + (hash << 6) + (hash >> 2)` in 64-bit unsigned arithmetic.
The argument `hashed` is `hasher(val)`. -/
def combine (hash : Nat) (hashed : Nat) : Nat :=
  hash ^^^ ((((hashed % 2 ^ 64 + 0x9e3779b9) % 2 ^ 64 + (hash <<< 6) % 2 ^ 64) % 2 ^ 64
    + (hash >>> 2)) % 2 ^ 64)

/-- The function `AddFieldToHash` of `types.cpp`. -/
def AddFieldToHash (hs : Hashers) (field : Schema.Field) (hash : Nat) : Nat :=
  let hash := combine hash (hs.str_hasher field.name)
  let hash := combine hash (hs.type_hasher field.type)
  let hash :=
    match field.custom_type with
    | some custom_type =>
      if field.type = BasicType.OTHER then combine hash (hs.str_hasher custom_type.typeName)
      else hash
    | none => hash
  let hash := combine hash (hs.bool_hasher field.is_vector)
  let hash := combine hash (hs.uint_hasher field.array_size)
  hash

/-- The combiner step in the words of the specification:
`h XOR (hash_of(x) + 0x9E3779B9 + (h << 6) + (h >> 2))`, all arithmetic modulo `2 ^ 64`; the
argument `x` is `hash_of(x)`. -/
def specCombinerStep (h : Nat) (x : Nat) : Nat :=
  Nat.xor h ((x + 0x9E3779B9 + h * 2 ^ 6 % 2 ^ 64 + h / 2 ^ 2) % 2 ^ 64)

/-- The hashed sub-values of a field in the order the specification gives: name, type tag, then
the custom type name when the type is `OTHER` and a custom type is set, then `is_vector`, then
`array_size`. -/
def specSubValues (hs : Hashers) (field : Schema.Field) : List Nat :=
  [hs.str_hasher field.name, hs.type_hasher field.type]
    ++ (match field.type, field.custom_type with
        | BasicType.OTHER, some custom_type => [hs.str_hasher custom_type.typeName]
        | _, _ => [])
    ++ [hs.bool_hasher field.is_vector, hs.uint_hasher field.array_size]

/-- Two fields agree on everything the specification lets the hash depend on: name, type,
`is_vector`, `array_size` and, for a field of type `OTHER`, whether a custom type is set and its
`typeName()`. -/
def hashAgree (a b : Schema.Field) : Prop :=
  a.name = b.name ∧ a.type = b.type ∧ a.is_vector = b.is_vector ∧ a.array_size = b.array_size ∧
    (a.type = BasicType.OTHER →
      a.custom_type.map CustomTypeInfo.typeName = b.custom_type.map CustomTypeInfo.typeName)

/-- A concrete choice of hashers for evaluating examples: integers hash to themselves and a
string to the sum of its code points weighted by 31. -/
def exampleHashers : Hashers where
  str_hasher := fun s => s.toList.foldl (fun acc c => (acc * 31 + c.toNat) % 2 ^ 64) 7
  type_hasher := fun t => t.toIndex
  bool_hasher := fun b => if b then 1 else 0
  uint_hasher := fun n => n

instance (a b : Schema.Field) : Decidable (hashAgree a b) := by
  unfold hashAgree
  infer_instance

/-- Two custom types named `Point3D` that differ in schema text and serialiser. -/
def examplePointA : CustomTypeInfo where
  typeName := "Point3D"
  typeSchema := some "float32 x\nfloat32 y\nfloat32 z\n"
  serializedSize := fun _ => 12
  serialize := fun src => src.take 12

/-- See `examplePointA`. -/
def examplePointB : CustomTypeInfo where
  typeName := "Point3D"
  typeSchema := none
  serializedSize := fun src => src.length
  serialize := fun src => src

/-- A custom type named `Pose`. -/
def examplePose : CustomTypeInfo where
  typeName := "Pose"
  typeSchema := some "float64 x\nfloat64 y\n"
  serializedSize := fun _ => 16
  serialize := fun src => src.take 16

/-- Three fields: a custom point, a scalar count and a fixed array. -/
def exampleFieldsA : List Schema.Field :=
  [ { name := "point", type := .OTHER, custom_type := some examplePointA },
    { name := "count", type := .INT32 },
    { name := "vect", type := .FLOAT64, is_vector := true, array_size := 3 } ]

/-- The fields of `exampleFieldsA` with another `Point3D` implementation and with a custom type
attached to the scalar field. -/
def exampleFieldsB : List Schema.Field :=
  [ { name := "point", type := .OTHER, custom_type := some examplePointB },
    { name := "count", type := .INT32, custom_type := some examplePose },
    { name := "vect", type := .FLOAT64, is_vector := true, array_size := 3 } ]

/-- The assignment `map[key] = value` on a `std::map<std::string, std::shared_ptr<CustomTypeInfo>>`.
The entries are kept in ascending order of key under `std::less<std::string>`, the lexicographic
order of the characters; assigning to a key already present replaces the mapped value. -/
def mapAssign (map : List (String × CustomTypeInfo)) (key : String) (value : CustomTypeInfo) :
    List (String × CustomTypeInfo) :=
  match map with
  | [] => [(key, value)]
  | (k, v) :: rest =>
    if key.toList < k.toList then (key, value) :: (k, v) :: rest
    else if k.toList < key.toList then (k, v) :: mapAssign rest key value
    else (k, value) :: rest

/-- The stream inserter `operator<<(std::ostream&, const Schema::Field&)` of `types.cpp`. -/
def writeField (os : String) (field : Schema.Field) : String :=
  let os :=
    match field.custom_type with
    | some custom_type =>
      if field.type = BasicType.OTHER then os ++ custom_type.typeName
      else os ++ ToStr field.type
    | none => os ++ ToStr field.type
  let os :=
    if field.is_vector = true ∧ field.array_size ≠ 0 then
      os ++ "[" ++ toString field.array_size ++ "]"
    else os
  let os :=
    if field.is_vector = true ∧ field.array_size = 0 then os ++ "[]"
    else os
  os ++ " " ++ field.name

/-- The first loop of `operator<<(std::ostream&, const Schema&)`: one step for one field, on the
pair of the local `custom_types` and the stream. -/
def writeSchemaFieldStep (state : List (String × CustomTypeInfo) × String)
    (field : Schema.Field) : List (String × CustomTypeInfo) × String :=
  let custom_types :=
    match field.custom_type with
    | some custom_type => mapAssign state.1 custom_type.typeName custom_type
    | none => state.1
  (custom_types, writeField state.2 field ++ "\n")

/-- The second loop of `operator<<(std::ostream&, const Schema&)`: one step for one entry
`[name, type]` of `custom_types`. -/
def writeSchemaTypeStep (os : String) (entry : String × CustomTypeInfo) : String :=
  match entry.2.typeSchema with
  | some custom_schema =>
    os ++ "---------\n" ++ entry.2.typeName ++ "\n" ++ "---------\n" ++ custom_schema
  | none => os

/-- The stream inserter `operator<<(std::ostream&, const Schema&)` of `types.cpp`. -/
def writeSchema (os : String) (schema : Schema) : String :=
  let os := os ++ "__version__: " ++ toString SCHEMA_VERSION ++ "\n"
  let os := os ++ "__hash__: " ++ toString schema.hash ++ "\n"
  let os := os ++ "__channel_name__: " ++ schema.channel_name ++ "\n"
  let state := schema.fields.foldl writeSchemaFieldStep ([], os)
  state.1.foldl writeSchemaTypeStep state.2

/-- The type token of a field line in the words of the specification: the custom type's
`typeName()` when the type is `OTHER` with a custom type set, `ToStr type` otherwise. -/
def specTypeToken (field : Schema.Field) : String :=
  match field.type, field.custom_type with
  | BasicType.OTHER, some custom_type => custom_type.typeName
  | type, _ => ToStr type

/-- The field line in the words of the specification: `<type> <name>` for a scalar,
`<type>[] <name>` for a dynamic vector, `<type>[N] <name>` for a fixed array of `N > 0`. -/
def specFieldLine (field : Schema.Field) : String :=
  if field.is_vector = false then
    specTypeToken field ++ " " ++ field.name
  else if field.array_size = 0 then
    specTypeToken field ++ "[] " ++ field.name
  else
    specTypeToken field ++ "[" ++ toString field.array_size ++ "] " ++ field.name

/-- The texts of a list, one after the other. -/
def concatAll : List String → String
  | [] => ""
  | s :: rest => s ++ concatAll rest

/-- The effect of one iteration of the first loop of `operator<<(std::ostream&, const Schema&)`
on the local `custom_types`. -/
def customTypesStep (custom_types : List (String × CustomTypeInfo)) (field : Schema.Field) :
    List (String × CustomTypeInfo) :=
  match field.custom_type with
  | some custom_type => mapAssign custom_types custom_type.typeName custom_type
  | none => custom_types

/-- The content of the local `custom_types` of `operator<<(std::ostream&, const Schema&)` once
the first loop has run over the fields. -/
def customTypesOf (fields : List Schema.Field) : List (String × CustomTypeInfo) :=
  fields.foldl customTypesStep []

/-- The custom-type blocks a schema text ends with, as pairs of type name and schema body, in
the order of emission: one for each entry of `custom_types` whose `typeSchema()` is not null. -/
def customBlocks (fields : List Schema.Field) : List (String × String) :=
  (customTypesOf fields).filterMap fun entry =>
    entry.2.typeSchema.map fun custom_schema => (entry.2.typeName, custom_schema)

/-- The text of one custom-type block: separator, type name, separator, body. -/
def blockText (block : String × String) : String :=
  "---------\n" ++ block.1 ++ "\n" ++ "---------\n" ++ block.2

/-- The head of a schema text in the words of the specification: the three header lines, then
one line per field, in insertion order, each the text of the field followed by a line feed. -/
def specSchemaHead (schema : Schema) : String :=
  "__version__: 3\n"
    ++ ("__hash__: " ++ toString schema.hash ++ "\n")
    ++ ("__channel_name__: " ++ schema.channel_name ++ "\n")
    ++ concatAll (schema.fields.map fun field => writeField "" field ++ "\n")

/-- A schema with two fields of type `Point3D`, one of type `Pose`, and two scalars. -/
def exampleSchema : Schema where
  fields :=
    [ { name := "pose", type := .OTHER, custom_type := some examplePose },
      { name := "a", type := .OTHER, custom_type := some examplePointA },
      { name := "count", type := .INT32 },
      { name := "b", type := .OTHER, is_vector := true, custom_type := some examplePointA },
      { name := "vect", type := .FLOAT64, is_vector := true, array_size := 3 } ]
  hash := 1234567
  channel_name := "chan"

/-- The operator `Schema::Field::operator==` of `types.cpp`. -/
def Schema.Field.eq (self other : Schema.Field) : Bool :=
  self.is_vector == other.is_vector &&
  self.type == other.type &&
  self.array_size == other.array_size &&
  self.name == other.name

/-- The operator `Schema::Field::operator!=` of `types.cpp`. -/
def Schema.Field.ne (self other : Schema.Field) : Bool :=
  !(self.eq other)

/-- The structure `RegistrationID` of `types.hpp`; both members are `size_t`. -/
structure RegistrationID where
  first_index : Nat := 0
  fields_count : Nat := 0
  deriving DecidableEq, Repr

/-- The operator `RegistrationID::operator+=`, as the new value of the left operand:
`fields_count += other.fields_count` in 64-bit unsigned arithmetic. -/
def RegistrationID.addAssign (self other : RegistrationID) : RegistrationID :=
  { self with fields_count := (self.fields_count + other.fields_count) % 2 ^ 64 }

/-- The member `std::variant::index()` of a `VarNumber`: the position of the alternative held. -/
def VarNumber.index : VarNumber → Nat
  | .bool _ => 0
  | .char _ => 1
  | .int8 _ => 2
  | .uint8 _ => 3
  | .int16 _ => 4
  | .uint16 _ => 5
  | .int32 _ => 6
  | .uint32 _ => 7
  | .int64 _ => 8
  | .uint64 _ => 9
  | .float _ => 10
  | .double _ => 11

/-- The bit pattern of a `double` is a NaN: all eleven exponent bits set and a mantissa that is
not zero. -/
def isNaN64 (bits : Nat) : Prop :=
  bits / 2 ^ 52 % 2 ^ 11 = 2 ^ 11 - 1 ∧ bits % 2 ^ 52 ≠ 0

instance (bits : Nat) : Decidable (isNaN64 bits) := by
  unfold isNaN64
  infer_instance

/-- The buffer holds a value of the C++ type of the tag: it has at least `SizeOf type` bytes and,
for `BOOL`, its first byte is 0 or 1. -/
def holdsValue (type : BasicType) (data : List Byte) : Prop :=
  SizeOf type ≤ data.length ∧ (type = BasicType.BOOL → data.head? = some 0 ∨ data.head? = some 1)

instance (type : BasicType) (data : List Byte) : Decidable (holdsValue type data) := by
  unfold holdsValue
  infer_instance

/-- The bracket part of a field line: nothing for a scalar, `[]` for a dynamic vector, `[N]` for
a fixed array of `N > 0` elements. -/
def specArraySuffix (field : Schema.Field) : String :=
  if field.is_vector = false then ""
  else if field.array_size = 0 then "[]"
  else "[" ++ toString field.array_size ++ "]"

/-- The text ends with a line feed. -/
def endsWithLF (text : String) : Prop :=
  text.toList.getLast? = some '\n'

instance (text : String) : Decidable (endsWithLF text) := by
  unfold endsWithLF
  infer_instance

/-- A schema in which two custom types share the name `Point3D`; the one registered last has a
null `typeSchema()`. -/
def exampleCollisionSchema : Schema where
  fields :=
    [ { name := "point", type := .OTHER, custom_type := some examplePointA },
      { name := "other", type := .OTHER, custom_type := some examplePointB } ]
  hash := 42
  channel_name := "chan"

/-- A schema whose only field has a custom type with a null `typeSchema()`. -/
def exampleNullSchema : Schema where
  fields := [ { name := "point", type := .OTHER, custom_type := some examplePointB } ]
  hash := 42
  channel_name := "chan"

/-- A custom type whose schema text does not end with a line feed. -/
def exampleAlpha : CustomTypeInfo where
  typeName := "Alpha"
  typeSchema := some "float32 x"
  serializedSize := fun _ => 4
  serialize := fun src => src.take 4

/-- See `exampleAlpha`. -/
def exampleBeta : CustomTypeInfo where
  typeName := "Beta"
  typeSchema := some "float32 y"
  serializedSize := fun _ => 4
  serialize := fun src => src.take 4

/-- A schema with two custom types whose schema texts do not end with a line feed. -/
def exampleUnterminatedSchema : Schema where
  fields :=
    [ { name := "a", type := .OTHER, custom_type := some exampleAlpha },
      { name := "b", type := .OTHER, custom_type := some exampleBeta } ]
  hash := 42
  channel_name := "chan"

/-- Modelled from the spec: the value reference of section 4.2 (`ValuePtr`), which is not among
the sources, reduced to what a channel asks of it: the type tag, the shape, and the bytes that
`serialize` writes for the present value of the observed variable. -/
structure ValueRef where
  type : BasicType
  is_vector : Bool := false
  array_size : Nat := 0
  wire : List Byte

/-- Modelled from the spec: `serializedSize()` of section 4.2, which is not among the sources:
the exact byte count that `serialize` will write for the current value. -/
def ValueRef.serializedSize (value : ValueRef) : Nat :=
  value.wire.length

/-- Modelled from the spec: one entry of `fields_meta` in the channel state of section 4.3,
which is not among the sources: the value reference and the enabled bit. -/
structure FieldMeta where
  value : ValueRef
  enabled : Bool := true

/-- Modelled from the spec: the channel state of section 4.3, which is not among the sources:
the schema, the entries parallel to its fields, and the flag `frozen`. The index of a name is
its position in the schema; the mutex and the sink queues are left out. -/
structure Channel where
  schema : Schema := {}
  fields_meta : List FieldMeta := []
  frozen : Bool := false

/-- Modelled from the spec: the snapshot record of section 3, which is not among the sources. -/
structure Snapshot where
  schema_hash : Nat
  timestamp_ns : Int
  active_mask : List Nat
  payload : List Byte

/-- Modelled from the spec: the error kinds of section 7 that `registerValue` reports. -/
inductive RegistrationError where
  | TypeMismatch
  | SchemaLocked
  deriving DecidableEq, Repr

/-- Modelled from the spec: the lookup of a name in `name_to_index` of section 4.3, which is not
among the sources: the index of the field of that name and the field stored there. -/
def findByName (fields : List Schema.Field) (name : String) : Option (Nat × Schema.Field) :=
  match fields with
  | [] => none
  | field :: rest =>
    if field.name = name then some (0, field)
    else (findByName rest name).map fun found => (found.1 + 1, found.2)

/-- Modelled from the spec: the comparison made by `registerValue` in section 4.3: the stored
field's `(type, is_vector, array_size)` matches the new value. -/
def sameSignature (field : Schema.Field) (value : ValueRef) : Prop :=
  field.type = value.type ∧ field.is_vector = value.is_vector ∧
    field.array_size = value.array_size

instance (field : Schema.Field) (value : ValueRef) : Decidable (sameSignature field value) := by
  unfold sameSignature
  infer_instance

/-- Modelled from the spec: `registerValue` of section 4.3, which is not among the sources. For
an existing name with a matching signature the value reference is replaced and the field
enabled, also when the channel is frozen; with another signature it fails with `TypeMismatch`.
A new name fails with `SchemaLocked` on a frozen channel and otherwise appends the field and
updates the hash with `AddFieldToHash`. A failure changes no state (section 7). -/
def registerValue (hs : Hashers) (channel : Channel) (name : String) (value : ValueRef) :
    Channel × Except RegistrationError RegistrationID :=
  match findByName channel.schema.fields name with
  | some (index, field) =>
    if sameSignature field value then
      ({ channel with
          fields_meta := channel.fields_meta.set index { value := value, enabled := true } },
        .ok { first_index := index, fields_count := 1 })
    else (channel, .error .TypeMismatch)
  | none =>
    if channel.frozen = true then (channel, .error .SchemaLocked)
    else
      let field : Schema.Field :=
        { name := name, type := value.type, is_vector := value.is_vector,
          array_size := value.array_size }
      ({ schema :=
            { channel.schema with
              fields := channel.schema.fields ++ [field],
              hash := AddFieldToHash hs field channel.schema.hash },
          fields_meta := channel.fields_meta ++ [{ value := value, enabled := true }],
          frozen := channel.frozen },
        .ok { first_index := channel.schema.fields.length, fields_count := 1 })

/-- Modelled from the spec: the update of the enabled bits for the indices
`[first, first + count)`, shared by `setEnabled` and `unregister` of section 4.3. -/
def setRange (metas : List FieldMeta) (first count : Nat) (enable : Bool) : List FieldMeta :=
  match metas, first, count with
  | [], _, _ => []
  | entry :: rest, 0, 0 => entry :: rest
  | entry :: rest, 0, count + 1 =>
    { entry with enabled := enable } :: setRange rest 0 count enable
  | entry :: rest, first + 1, count => entry :: setRange rest first count enable

/-- Modelled from the spec: `setEnabled(id, bool)` of section 4.3, which is not among the
sources: sets or clears the enabled bits for the range of the handle. -/
def setEnabled (channel : Channel) (id : RegistrationID) (enable : Bool) : Channel :=
  { channel with
    fields_meta := setRange channel.fields_meta id.first_index id.fields_count enable }

/-- Modelled from the spec: `unregister(id)` of section 4.3, which is not among the sources:
clears the enabled bits of the range and leaves the schema as it is. -/
def unregister (channel : Channel) (id : RegistrationID) : Channel :=
  setEnabled channel id false

/-- Modelled from the spec: the `active_mask` of section 3, which is not among the sources: one
bit per field, least significant bit first within each byte, in field insertion order, in
`ceil(N / 8)` bytes; a bit is 1 when the field is enabled. The specification does not say what
the bits past the last field hold; `TEST(DataTamer, Disable)` registers seven fields and
expects `0b11111111`, so they are 1. -/
def activeMask (enabled : List Bool) : List Nat :=
  (List.range ((enabled.length + 7) / 8)).map fun byte =>
    (List.range 8).foldl
      (fun acc bit => acc + if enabled.getD (8 * byte + bit) true then 2 ^ bit else 0) 0

/-- Modelled from the spec: the `payload` of section 3, which is not among the sources: the
concatenation of the serialised values of the enabled fields, in field insertion order. -/
def payloadOf : List FieldMeta → List Byte
  | [] => []
  | entry :: rest =>
    if entry.enabled then entry.value.wire ++ payloadOf rest else payloadOf rest

/-- Modelled from the spec: `takeSnapshot` of section 4.3, which is not among the sources, up to
the release of the mutex: it sets `frozen`, takes the timestamp handed in, computes the mask from
the enabled bits and serialises the enabled fields in order. The hand-over to the sinks is left
out. -/
def takeSnapshot (channel : Channel) (timestamp_ns : Int) : Channel × Snapshot :=
  ({ channel with frozen := true },
    { schema_hash := channel.schema.hash,
      timestamp_ns := timestamp_ns,
      active_mask := activeMask (channel.fields_meta.map fun entry => entry.enabled),
      payload := payloadOf channel.fields_meta })

/-- The values of `TEST(DataTamer, TestRegistration)`: a `double` and an `int32_t`. -/
def exampleDouble : ValueRef where
  type := .FLOAT64
  wire := leBytes 8 0x4051400000000000

/-- See `exampleDouble`. -/
def exampleInt : ValueRef where
  type := .INT32
  wire := leBytes 4 55

/-- The channel of `TEST(DataTamer, Disable)` after its seven registrations: a `double`, a
`float`, an `int32_t`, a `uint16_t`, a `bool`, an array of three `double` and a vector of four
`float`. -/
def exampleDisableChannel : Channel :=
  let c0 : Channel := { schema := { channel_name := "chan" } }
  let c1 := (registerValue exampleHashers c0 "v1" exampleDouble).1
  let c2 := (registerValue exampleHashers c1 "v2"
    { type := .FLOAT32, wire := leBytes 4 0x41B00000 }).1
  let c3 := (registerValue exampleHashers c2 "v3" exampleInt).1
  let c4 := (registerValue exampleHashers c3 "v4" { type := .UINT16, wire := leBytes 2 44 }).1
  let c5 := (registerValue exampleHashers c4 "v5" { type := .BOOL, wire := leBytes 1 1 }).1
  let c6 := (registerValue exampleHashers c5 "v6"
    { type := .FLOAT64, is_vector := true, array_size := 3, wire := leBytes 24 0 }).1
  (registerValue exampleHashers c6 "v7"
    { type := .FLOAT32, is_vector := true, wire := leBytes 4 4 ++ leBytes 16 0 }).1

/-! ## Theorems -/

theorem kMap_eq : kMap =
    [ ("bool", .BOOL), ("char", .CHAR), ("int8", .INT8), ("uint8", .UINT8),
      ("int16", .INT16), ("uint16", .UINT16), ("int32", .INT32), ("uint32", .UINT32),
      ("int64", .INT64), ("uint64", .UINT64), ("float32", .FLOAT32), ("float64", .FLOAT64),
      ("other", .OTHER) ] := by
  decide

theorem unorderedFind_none {β : Type} (map : List (String × β)) (key : String)
    (h : key ∉ map.map Prod.fst) : unorderedFind map key = none := by
  induction map with
  | nil => rfl
  | cons p rest ih =>
    obtain ⟨k, v⟩ := p
    simp only [List.map_cons, List.mem_cons, not_or] at h
    simp only [unorderedFind]
    rw [if_neg (fun e => h.1 e.symm)]
    exact ih h.2

theorem unorderedFind_some {β : Type} (map : List (String × β)) (key : String) (value : β)
    (h : unorderedFind map key = some value) : (key, value) ∈ map := by
  induction map with
  | nil => simp [unorderedFind] at h
  | cons p rest ih =>
    obtain ⟨k, v⟩ := p
    simp only [unorderedFind] at h
    by_cases e : k = key
    · rw [if_pos e] at h
      simp only [Option.some.injEq] at h
      simp [e, h]
    · rw [if_neg e] at h
      exact List.mem_cons_of_mem _ (ih h)

theorem kMap_keys : kMap.map Prod.fst = kNames := by
  rw [kMap_eq]
  rfl

/-- C4. Name round trip: `FromStr (ToStr t) = t` for each of the 13 tags, `OTHER` included. -/
theorem FromStr_ToStr (t : BasicType) : FromStr (ToStr t) = t := by
  cases t <;> decide

/-- C5. `FromStr` never fails and defaults to `OTHER`: a string that is not one of the 13 names
gives `OTHER`, and the result differs from `OTHER` exactly for the twelve scalar names. -/
theorem FromStr_default (s : String) :
    (s ∉ kNames → FromStr s = BasicType.OTHER) ∧
    (FromStr s ≠ BasicType.OTHER ↔
      s ∈ ["bool", "char", "int8", "uint8", "int16", "uint16", "int32", "uint32",
           "int64", "uint64", "float32", "float64"]) := by
  constructor
  · intro h
    unfold FromStr
    rw [unorderedFind_none kMap s (by rw [kMap_keys]; exact h)]
  · constructor
    · intro h
      unfold FromStr at h
      cases hf : unorderedFind kMap s with
      | none => rw [hf] at h; exact absurd rfl h
      | some v =>
        rw [hf] at h
        have hm := unorderedFind_some kMap s v hf
        rw [kMap_eq] at hm
        simp only [List.mem_cons, Prod.mk.injEq, List.mem_singleton, List.not_mem_nil,
          or_false] at hm
        simp only [List.mem_cons, List.mem_singleton, List.not_mem_nil, or_false]
        rcases hm with h1 | h1 | h1 | h1 | h1 | h1 | h1 | h1 | h1 | h1 | h1 | h1 | h1
        all_goals first
          | (exfalso; exact h h1.2)
          | simp only [h1.1, true_or, or_true]
    · intro h
      simp only [List.mem_cons, List.mem_singleton, List.not_mem_nil, or_false] at h
      rcases h with h | h | h | h | h | h | h | h | h | h | h | h <;> subst h <;> decide

/-- A string outside the table, differing from a name only by case, gives `OTHER`. -/
theorem FromStr_default_witness :
    "Bool" ∉ kNames ∧ FromStr "Bool" = BasicType.OTHER :=
  ⟨by decide, (FromStr_default "Bool").1 (by decide)⟩

/-- C6. `SizeOf` returns the documented byte width of every tag. -/
theorem SizeOf_table :
    SizeOf .BOOL = 1 ∧ SizeOf .CHAR = 1 ∧ SizeOf .INT8 = 1 ∧ SizeOf .UINT8 = 1 ∧
    SizeOf .INT16 = 2 ∧ SizeOf .UINT16 = 2 ∧ SizeOf .INT32 = 4 ∧ SizeOf .UINT32 = 4 ∧
    SizeOf .INT64 = 8 ∧ SizeOf .UINT64 = 8 ∧ SizeOf .FLOAT32 = 4 ∧ SizeOf .FLOAT64 = 8 ∧
    SizeOf .OTHER = 0 := by
  decide

/-- C7. `ToStr` gives, for every tag, the lowercase spelling of the tag's name. -/
theorem ToStr_table :
    ToStr .BOOL = "bool" ∧ ToStr .CHAR = "char" ∧ ToStr .INT8 = "int8" ∧
    ToStr .UINT8 = "uint8" ∧ ToStr .INT16 = "int16" ∧ ToStr .UINT16 = "uint16" ∧
    ToStr .INT32 = "int32" ∧ ToStr .UINT32 = "uint32" ∧ ToStr .INT64 = "int64" ∧
    ToStr .UINT64 = "uint64" ∧ ToStr .FLOAT32 = "float32" ∧ ToStr .FLOAT64 = "float64" ∧
    ToStr .OTHER = "other" := by
  decide

theorem leBytes_length (n v : Nat) : (leBytes n v).length = n := by
  induction n generalizing v with
  | zero => rfl
  | succ n ih => simp [leBytes, ih]

theorem leValue_leBytes (n v : Nat) : leValue (leBytes n v) = v % 256 ^ n := by
  induction n generalizing v with
  | zero => simp [leBytes, leValue, Nat.mod_one]
  | succ n ih =>
    simp only [leBytes, leValue, ih]
    rw [pow_succ', Nat.mod_mul]

theorem DeserializeImpl_leBytes (n v : Nat) (rest : List Byte) :
    DeserializeImpl n (leBytes n v ++ rest) = some (v % 256 ^ n) := by
  unfold DeserializeImpl
  rw [if_pos (by simp [leBytes_length])]
  rw [List.take_append_of_le_length (by simp [leBytes_length])]
  rw [List.take_of_length_le (by simp [leBytes_length]), leValue_leBytes]

/-- C1. Scalar round trip: a value `v` of any of the twelve scalar types, written as its
`SizeOf B` little-endian bytes, is read back by `DeserializeAsVarType B` as the same alternative
holding the same value, whatever bytes follow it in the buffer. -/
theorem scalar_round_trip (B : BasicType) (v : VarNumber) (hB : GetBasicType v = B)
    (hv : v.inRange) :
    B ≠ BasicType.OTHER ∧
    (serializeScalar v).length = SizeOf B ∧
    ∀ rest : List Byte, DeserializeAsVarType B (serializeScalar v ++ rest) = some v := by
  subst hB
  refine ⟨by cases v <;> simp [GetBasicType], ?_, ?_⟩
  · simp [serializeScalar, leBytes_length]
  · intro rest
    cases v with
    | bool b =>
      cases b <;>
        simp [serializeScalar, GetBasicType, DeserializeAsVarType, SizeOf, kSizes,
          BasicType.toIndex, DeserializeImpl_leBytes, VarNumber.bits]
    | char x | uint8 x | uint16 x | uint32 x | uint64 x | float x | double x =>
      simp only [VarNumber.inRange] at hv
      simp only [serializeScalar, GetBasicType, DeserializeAsVarType, SizeOf, kSizes,
        BasicType.toIndex, List.get, DeserializeImpl_leBytes, VarNumber.bits, Option.map_some',
        Option.some.injEq]
      congr 1
      exact Nat.mod_eq_of_lt (by norm_num; omega)
    | int8 x | int16 x | int32 x | int64 x =>
      simp only [VarNumber.inRange] at hv
      simp only [serializeScalar, GetBasicType, DeserializeAsVarType, SizeOf, kSizes,
        BasicType.toIndex, List.get, DeserializeImpl_leBytes, VarNumber.bits, Option.map_some',
        Option.some.injEq]
      congr 1
      unfold toSigned
      norm_num
      split_ifs <;> omega

/-- An `int32_t` holding `-2` is written as `FE FF FF FF` and read back unchanged from a buffer
of eight bytes. -/
theorem scalar_round_trip_witness :
    GetBasicType (.int32 (-2)) = BasicType.INT32 ∧ (VarNumber.int32 (-2)).inRange ∧
    serializeScalar (.int32 (-2)) = [254, 255, 255, 255] ∧
    DeserializeAsVarType .INT32 (serializeScalar (.int32 (-2)) ++ [1, 2, 3, 4])
      = some (.int32 (-2)) :=
  ⟨rfl, by decide, by decide,
    (scalar_round_trip .INT32 (.int32 (-2)) rfl (by decide)).2.2 [1, 2, 3, 4]⟩

theorem combine_eq_spec (h x : Nat) : combine h x = specCombinerStep h x := by
  unfold combine specCombinerStep
  rw [Nat.shiftLeft_eq, Nat.shiftRight_eq_div_pow]
  show h ^^^ _ = h ^^^ _
  congr 1
  omega

/-- C2. `AddFieldToHash field h` is the combiner step of the specification applied successively
to the hashes of name, type, custom type name (only for `OTHER` with a custom type set),
`is_vector` and `array_size`, in that order, for every field and every incoming hash. -/
theorem AddFieldToHash_eq_spec (hs : Hashers) (field : Schema.Field) (h : Nat) :
    AddFieldToHash hs field h = (specSubValues hs field).foldl specCombinerStep h := by
  unfold AddFieldToHash specSubValues
  cases hc : field.custom_type with
  | none =>
    cases field.type <;> simp [combine_eq_spec, List.foldl]
  | some ct =>
    cases ht : field.type <;> simp [combine_eq_spec, List.foldl]

theorem AddFieldToHash_congr (hs : Hashers) (a b : Schema.Field) (h : Nat)
    (hab : hashAgree a b) : AddFieldToHash hs a h = AddFieldToHash hs b h := by
  obtain ⟨hn, ht, hv, hsz, hc⟩ := hab
  unfold AddFieldToHash
  rw [← hn, ← ht, ← hv, ← hsz]
  by_cases hO : a.type = BasicType.OTHER
  · have hc1 := hc hO
    cases ha : a.custom_type with
    | none =>
      cases hb : b.custom_type with
      | none => rfl
      | some cb => rw [ha, hb] at hc1; simp at hc1
    | some ca =>
      cases hb : b.custom_type with
      | none => rw [ha, hb] at hc1; simp at hc1
      | some cb =>
        rw [ha, hb] at hc1
        simp only [Option.map_some', Option.some.injEq] at hc1
        simp only [hO, if_true, hc1]
  · cases a.custom_type <;> cases b.custom_type <;> simp only [hO, if_false]

theorem foldl_AddFieldToHash_congr (hs : Hashers) (fs gs : List Schema.Field)
    (hfg : List.Forall₂ hashAgree fs gs) (h : Nat) :
    fs.foldl (fun h f => AddFieldToHash hs f h) h
      = gs.foldl (fun h f => AddFieldToHash hs f h) h := by
  induction hfg generalizing h with
  | nil => rfl
  | cons hab _ ih =>
    simp only [List.foldl_cons]
    rw [AddFieldToHash_congr hs _ _ h hab]
    exact ih _

/-- C3. The schema hash depends only on the ordered field sequence: two schemas whose field
sequences have the same length and agree position by position on name, type, `is_vector`,
`array_size` and, for fields of type `OTHER`, on the presence and `typeName()` of the custom type,
get the same hash by folding `AddFieldToHash` from the initial hash `0`. Channel name, custom
schema text, serialiser and a custom type on a non-`OTHER` field play no part. -/
theorem schema_hash_depends_only_on_fields (hs : Hashers) (s1 s2 : Schema)
    (hfields : List.Forall₂ hashAgree s1.fields s2.fields) :
    s1.fields.foldl (fun h f => AddFieldToHash hs f h) 0
      = s2.fields.foldl (fun h f => AddFieldToHash hs f h) 0 :=
  foldl_AddFieldToHash_congr hs s1.fields s2.fields hfields 0

/-- Two schemas with different channel names, different `Point3D` implementations and a custom
type attached to an `int32` field have the same hash. -/
theorem schema_hash_depends_only_on_fields_witness :
    List.Forall₂ hashAgree exampleFieldsA exampleFieldsB ∧
    exampleFieldsA.foldl (fun h f => AddFieldToHash exampleHashers f h) 0
      = exampleFieldsB.foldl (fun h f => AddFieldToHash exampleHashers f h) 0 :=
  have hfields : List.Forall₂ hashAgree exampleFieldsA exampleFieldsB :=
    List.Forall₂.cons (by decide)
      (List.Forall₂.cons (by decide) (List.Forall₂.cons (by decide) List.Forall₂.nil))
  ⟨hfields,
    schema_hash_depends_only_on_fields exampleHashers
      { fields := exampleFieldsA, channel_name := "chan" }
      { fields := exampleFieldsB, channel_name := "other_chan" } hfields⟩

theorem writeField_append (os : String) (field : Schema.Field) :
    writeField os field = os ++ writeField "" field := by
  unfold writeField
  cases field.custom_type <;> simp only [] <;> split_ifs <;>
    simp only [String.append_assoc, String.empty_append]

/-- C8. Field line format: `operator<<` on a field appends `<type> <name>` for a scalar,
`<type>[] <name>` for a dynamic vector and `<type>[N] <name>` for a fixed array of `N > 0`
elements, the type token being the custom type's `typeName()` for `OTHER` with a custom type set
and `ToStr type` otherwise. -/
theorem writeField_format (os : String) (field : Schema.Field) :
    writeField os field = os ++ specFieldLine field := by
  have e1 : "[]" ++ " " = "[] " := by decide
  have e2 : "]" ++ " " = "] " := by decide
  have htok : ∀ os : String,
      (match field.custom_type with
        | some custom_type =>
          if field.type = BasicType.OTHER then os ++ custom_type.typeName
          else os ++ ToStr field.type
        | none => os ++ ToStr field.type) = os ++ specTypeToken field := by
    intro os
    unfold specTypeToken
    cases field.custom_type <;> cases field.type <;> simp
  unfold writeField specFieldLine
  simp only [htok]
  cases hv : field.is_vector
  · simp [String.append_assoc]
  · by_cases hz : field.array_size = 0
    · simp [hz, String.append_assoc, e1]
    · simp [hz, String.append_assoc, e2]

theorem concatAll_append (xs ys : List String) :
    concatAll (xs ++ ys) = concatAll xs ++ concatAll ys := by
  induction xs with
  | nil => simp [concatAll]
  | cons x xs ih => simp [concatAll, ih, String.append_assoc]

theorem foldl_writeSchemaFieldStep (fields : List Schema.Field)
    (custom_types : List (String × CustomTypeInfo)) (os : String) :
    fields.foldl writeSchemaFieldStep (custom_types, os)
      = (fields.foldl customTypesStep custom_types,
          os ++ concatAll (fields.map fun field => writeField "" field ++ "\n")) := by
  induction fields generalizing custom_types os with
  | nil => simp [concatAll]
  | cons field rest ih =>
    simp only [List.foldl_cons, List.map_cons, concatAll]
    have hstep : writeSchemaFieldStep (custom_types, os) field
        = (customTypesStep custom_types field, writeField os field ++ "\n") := by
      unfold writeSchemaFieldStep customTypesStep
      cases field.custom_type <;> rfl
    rw [hstep, ih, writeField_append os field]
    simp only [String.append_assoc]

theorem foldl_writeSchemaTypeStep (custom_types : List (String × CustomTypeInfo)) (os : String) :
    custom_types.foldl writeSchemaTypeStep os
      = os ++ concatAll
          ((custom_types.filterMap fun entry =>
              entry.2.typeSchema.map fun custom_schema =>
                (entry.2.typeName, custom_schema)).map blockText) := by
  induction custom_types generalizing os with
  | nil => simp [concatAll]
  | cons entry rest ih =>
    simp only [List.foldl_cons, ih]
    unfold writeSchemaTypeStep
    cases hts : entry.2.typeSchema with
    | none => simp [List.filterMap_cons, hts]
    | some custom_schema =>
      simp [List.filterMap_cons, hts, concatAll, blockText, String.append_assoc]

theorem writeSchema_eq (os : String) (schema : Schema) :
    writeSchema os schema
      = os ++ specSchemaHead schema ++ concatAll ((customBlocks schema.fields).map blockText) := by
  have hv : "__version__: " ++ (toString SCHEMA_VERSION ++ "\n") = "__version__: 3\n" := by
    decide
  unfold writeSchema specSchemaHead customBlocks customTypesOf
  simp only [foldl_writeSchemaFieldStep, foldl_writeSchemaTypeStep, String.append_assoc, hv]

/-- C9. Schema text head: `operator<<` on a schema writes the lines `__version__: 3`,
`__hash__: <hash in decimal>` and `__channel_name__: <channel name>`, then one line per field in
insertion order, each the text of that field followed by a line feed, and after the last field
line nothing but custom-type blocks. -/
theorem writeSchema_head (os : String) (schema : Schema) :
    writeSchema os schema
      = os
        ++ ("__version__: 3\n"
            ++ ("__hash__: " ++ toString schema.hash ++ "\n")
            ++ ("__channel_name__: " ++ schema.channel_name ++ "\n")
            ++ concatAll (schema.fields.map fun field => writeField "" field ++ "\n"))
        ++ concatAll ((customBlocks schema.fields).map blockText) :=
  writeSchema_eq os schema

set_option maxRecDepth 100000 in
/-- The text of `exampleSchema`. -/
theorem writeSchema_exampleSchema :
    writeSchema "" exampleSchema
      = "__version__: 3\n__hash__: 1234567\n__channel_name__: chan\n"
        ++ "Pose pose\nPoint3D a\nint32 count\nPoint3D[] b\nfloat64[3] vect\n"
        ++ "---------\nPoint3D\n---------\nfloat32 x\nfloat32 y\nfloat32 z\n"
        ++ "---------\nPose\n---------\nfloat64 x\nfloat64 y\n" := by
  decide

theorem mapAssign_mem (map : List (String × CustomTypeInfo)) (key : String)
    (value : CustomTypeInfo) (p : String × CustomTypeInfo) (hp : p ∈ mapAssign map key value) :
    p ∈ map ∨ p = (key, value) := by
  induction map with
  | nil =>
    simp only [mapAssign, List.mem_singleton] at hp
    exact Or.inr hp
  | cons e rest ih =>
    obtain ⟨k, v⟩ := e
    simp only [mapAssign] at hp
    split_ifs at hp with h1 h2
    · rcases List.mem_cons.mp hp with h | h
      · exact Or.inr h
      · exact Or.inl h
    · rcases List.mem_cons.mp hp with h | h
      · exact Or.inl (h ▸ List.mem_cons_self _ _)
      · rcases ih h with h' | h'
        · exact Or.inl (List.mem_cons_of_mem _ h')
        · exact Or.inr h'
    · have hk : k = key :=
        String.toList_inj.mp (le_antisymm (not_lt.mp h1) (not_lt.mp h2))
      rcases List.mem_cons.mp hp with h | h
      · exact Or.inr (by rw [h, hk])
      · exact Or.inl (List.mem_cons_of_mem _ h)

theorem mapAssign_keys (map : List (String × CustomTypeInfo)) (key : String)
    (value : CustomTypeInfo) (name : String) :
    name ∈ (mapAssign map key value).map Prod.fst ↔ name = key ∨ name ∈ map.map Prod.fst := by
  induction map with
  | nil => simp [mapAssign]
  | cons e rest ih =>
    obtain ⟨k, v⟩ := e
    simp only [mapAssign]
    split_ifs with h1 h2
    · simp
    · simp only [List.map_cons, List.mem_cons, ih]
      tauto
    · have hk : k = key :=
        String.toList_inj.mp (le_antisymm (not_lt.mp h1) (not_lt.mp h2))
      simp only [List.map_cons, List.mem_cons, hk]
      tauto

theorem mapAssign_sorted (map : List (String × CustomTypeInfo)) (key : String)
    (value : CustomTypeInfo)
    (hmap : map.Pairwise fun a b => a.1.toList < b.1.toList) :
    (mapAssign map key value).Pairwise fun a b => a.1.toList < b.1.toList := by
  induction map with
  | nil => simp [mapAssign]
  | cons e rest ih =>
    obtain ⟨k, v⟩ := e
    rw [List.pairwise_cons] at hmap
    simp only [mapAssign]
    split_ifs with h1 h2
    · refine List.pairwise_cons.mpr ⟨?_, List.pairwise_cons.mpr hmap⟩
      intro p hp
      rcases List.mem_cons.mp hp with h | h
      · rw [h]; exact h1
      · exact lt_trans h1 (hmap.1 p h)
    · refine List.pairwise_cons.mpr ⟨?_, ih hmap.2⟩
      intro p hp
      rcases mapAssign_mem rest key value p hp with h | h
      · exact hmap.1 p h
      · rw [h]; exact h2
    · exact List.pairwise_cons.mpr ⟨hmap.1, hmap.2⟩

theorem foldl_customTypesStep_sorted (fields : List Schema.Field)
    (map : List (String × CustomTypeInfo))
    (hmap : map.Pairwise fun a b => a.1.toList < b.1.toList) :
    (fields.foldl customTypesStep map).Pairwise fun a b => a.1.toList < b.1.toList := by
  induction fields generalizing map with
  | nil => exact hmap
  | cons field rest ih =>
    simp only [List.foldl_cons]
    apply ih
    unfold customTypesStep
    cases field.custom_type with
    | none => exact hmap
    | some ct => exact mapAssign_sorted map ct.typeName ct hmap

theorem foldl_customTypesStep_mem (fields : List Schema.Field)
    (map : List (String × CustomTypeInfo)) (p : String × CustomTypeInfo)
    (hp : p ∈ fields.foldl customTypesStep map) :
    p ∈ map ∨ (p.1 = p.2.typeName ∧ ∃ f ∈ fields, f.custom_type = some p.2) := by
  induction fields generalizing map with
  | nil => exact Or.inl hp
  | cons field rest ih =>
    simp only [List.foldl_cons] at hp
    rcases ih _ hp with h | ⟨h1, f, hf, hfc⟩
    · unfold customTypesStep at h
      cases hc : field.custom_type with
      | none =>
        rw [hc] at h
        exact Or.inl h
      | some ct =>
        rw [hc] at h
        rcases mapAssign_mem map ct.typeName ct p h with h' | h'
        · exact Or.inl h'
        · refine Or.inr ⟨by rw [h'], field, List.mem_cons_self _ _, ?_⟩
          rw [h', hc]
    · exact Or.inr ⟨h1, f, List.mem_cons_of_mem _ hf, hfc⟩

theorem foldl_customTypesStep_keys (fields : List Schema.Field)
    (map : List (String × CustomTypeInfo)) (name : String) :
    name ∈ (fields.foldl customTypesStep map).map Prod.fst ↔
      name ∈ map.map Prod.fst ∨
        ∃ f ∈ fields, ∃ ct, f.custom_type = some ct ∧ ct.typeName = name := by
  induction fields generalizing map with
  | nil => simp
  | cons field rest ih =>
    simp only [List.foldl_cons, ih, List.mem_cons, exists_eq_or_imp]
    unfold customTypesStep
    cases hc : field.custom_type with
    | none => simp
    | some ct =>
      simp only [mapAssign_keys, Option.some.injEq, exists_eq_left']
      constructor
      · rintro ((h | h) | h)
        · exact Or.inr (Or.inl h.symm)
        · exact Or.inl h
        · exact Or.inr (Or.inr h)
      · rintro (h | h | h)
        · exact Or.inl (Or.inr h)
        · exact Or.inl (Or.inl h.symm)
        · exact Or.inr h

theorem customTypesOf_sorted (fields : List Schema.Field) :
    ((customTypesOf fields).map Prod.fst).Pairwise (· < ·) := by
  rw [List.pairwise_map]
  refine (foldl_customTypesStep_sorted fields [] List.Pairwise.nil).imp ?_
  intro a b hab
  exact String.lt_iff_toList_lt.mpr hab

theorem customTypesOf_entry (fields : List Schema.Field) (p : String × CustomTypeInfo)
    (hp : p ∈ customTypesOf fields) :
    p.1 = p.2.typeName ∧ ∃ f ∈ fields, f.custom_type = some p.2 := by
  rcases foldl_customTypesStep_mem fields [] p hp with h | h
  · exact absurd h (List.not_mem_nil _)
  · exact h

theorem filterMap_schema_names (entries : List (String × CustomTypeInfo))
    (hentries : ∀ p ∈ entries, p.1 = p.2.typeName ∧ p.2.typeSchema ≠ none) :
    (entries.filterMap fun entry =>
        entry.2.typeSchema.map fun custom_schema =>
          (entry.2.typeName, custom_schema)).map Prod.fst
      = entries.map Prod.fst := by
  induction entries with
  | nil => rfl
  | cons e rest ih =>
    have he := hentries e (List.mem_cons_self _ _)
    have ih' := ih fun p hp => hentries p (List.mem_cons_of_mem _ hp)
    cases hts : e.2.typeSchema with
    | none => exact absurd hts he.2
    | some custom_schema =>
      simp only [List.filterMap_cons, hts, Option.map_some', List.map_cons, ih', he.1]

theorem customBlocks_names (fields : List Schema.Field)
    (hfields : ∀ f ∈ fields, ∀ ct, f.custom_type = some ct → ct.typeSchema ≠ none) :
    (customBlocks fields).map Prod.fst = (customTypesOf fields).map Prod.fst := by
  unfold customBlocks
  apply filterMap_schema_names
  intro p hp
  obtain ⟨h1, f, hf, hfc⟩ := customTypesOf_entry fields p hp
  exact ⟨h1, hfields f hf p.2 hfc⟩

theorem customBlocks_origin (fields : List Schema.Field) (block : String × String)
    (hblock : block ∈ customBlocks fields) :
    ∃ f ∈ fields, ∃ ct, f.custom_type = some ct ∧ ct.typeName = block.1 ∧
      ct.typeSchema = some block.2 := by
  unfold customBlocks at hblock
  rw [List.mem_filterMap] at hblock
  obtain ⟨p, hp, hg⟩ := hblock
  obtain ⟨_, f, hf, hfc⟩ := customTypesOf_entry fields p hp
  cases hts : p.2.typeSchema with
  | none => rw [hts] at hg; simp at hg
  | some custom_schema =>
    rw [hts] at hg
    simp only [Option.map_some', Option.some.injEq] at hg
    refine ⟨f, hf, p.2, hfc, ?_, ?_⟩
    · rw [← hg]
    · rw [← hg]; exact hts

/-- C10. Custom-type blocks are sorted and unique: when every custom type referenced by a field
has a non-null `typeSchema()`, the schema text is its head followed by the blocks
`---------\n<typeName>\n---------\n<typeSchema>`, the type names of the blocks are in strictly
ascending lexicographic order, a type name has a block exactly when some field references a
custom type of that name, it then has exactly one, and each block carries the name and schema
text of a custom type referenced by a field. -/
theorem customBlocks_sorted_unique (schema : Schema)
    (hschema : ∀ f ∈ schema.fields, ∀ ct, f.custom_type = some ct → ct.typeSchema ≠ none) :
    (∀ os : String, writeSchema os schema
      = os ++ specSchemaHead schema
          ++ concatAll ((customBlocks schema.fields).map fun block =>
              "---------\n" ++ block.1 ++ "\n" ++ "---------\n" ++ block.2)) ∧
    ((customBlocks schema.fields).map Prod.fst).Pairwise (· < ·) ∧
    (∀ name : String,
      name ∈ (customBlocks schema.fields).map Prod.fst ↔
        ∃ f ∈ schema.fields, ∃ ct, f.custom_type = some ct ∧ ct.typeName = name) ∧
    (∀ name : String,
      (∃ f ∈ schema.fields, ∃ ct, f.custom_type = some ct ∧ ct.typeName = name) →
        ((customBlocks schema.fields).map Prod.fst).count name = 1) ∧
    (∀ block ∈ customBlocks schema.fields,
      ∃ f ∈ schema.fields, ∃ ct, f.custom_type = some ct ∧ ct.typeName = block.1 ∧
        ct.typeSchema = some block.2) := by
  have hnames := customBlocks_names schema.fields hschema
  have hsorted : ((customBlocks schema.fields).map Prod.fst).Pairwise (· < ·) := by
    rw [hnames]
    exact customTypesOf_sorted schema.fields
  have hkeys : ∀ name : String,
      name ∈ (customBlocks schema.fields).map Prod.fst ↔
        ∃ f ∈ schema.fields, ∃ ct, f.custom_type = some ct ∧ ct.typeName = name := by
    intro name
    rw [hnames]
    unfold customTypesOf
    rw [foldl_customTypesStep_keys]
    simp
  refine ⟨fun os => writeSchema_eq os schema, hsorted, hkeys, ?_,
    fun block hblock => customBlocks_origin schema.fields block hblock⟩
  intro name href
  exact List.count_eq_one_of_mem (hsorted.imp fun h => ne_of_lt h) ((hkeys name).mpr href)

/-- In `exampleSchema`, where `Point3D` is referenced by two fields and `Pose` by one, the blocks
are those of `Point3D` and `Pose`, in this order. -/
theorem customBlocks_sorted_unique_witness :
    (∀ f ∈ exampleSchema.fields, ∀ ct, f.custom_type = some ct → ct.typeSchema ≠ none) ∧
    ((customBlocks exampleSchema.fields).map Prod.fst).Pairwise (· < ·) ∧
    ((customBlocks exampleSchema.fields).map Prod.fst).count "Point3D" = 1 ∧
    (customBlocks exampleSchema.fields).map Prod.fst = ["Point3D", "Pose"] :=
  have hschema : ∀ f ∈ exampleSchema.fields, ∀ ct, f.custom_type = some ct →
      ct.typeSchema ≠ none := by
    intro f hf ct hct
    simp only [exampleSchema, List.mem_cons, List.mem_singleton, List.not_mem_nil,
      or_false] at hf
    rcases hf with h | h | h | h | h <;> subst h <;> simp at hct <;> subst hct <;>
      simp [examplePose, examplePointA]
  ⟨hschema, (customBlocks_sorted_unique exampleSchema hschema).2.1,
    (customBlocks_sorted_unique exampleSchema hschema).2.2.2.1 "Point3D"
      ⟨{ name := "a", type := .OTHER, custom_type := some examplePointA }, by
        simp [exampleSchema], examplePointA, rfl, rfl⟩,
    by decide⟩

/-- C14. Field equality ignores `custom_type`: `a == b` holds exactly when name, type,
`is_vector` and `array_size` agree, replacing the custom types of both operands changes nothing,
and `a != b` is the negation of `a == b`. -/
theorem Field_eq_iff (a b : Schema.Field) :
    (a.eq b = true ↔
      a.name = b.name ∧ a.type = b.type ∧ a.is_vector = b.is_vector ∧
        a.array_size = b.array_size) ∧
    (∀ ca cb : Option CustomTypeInfo,
      Schema.Field.eq { a with custom_type := ca } { b with custom_type := cb } = a.eq b) ∧
    a.ne b = !(a.eq b) := by
  refine ⟨?_, fun _ _ => rfl, rfl⟩
  unfold Schema.Field.eq
  simp only [Bool.and_eq_true, beq_iff_eq]
  tauto

/-- C15. `DeserializeAsVarType OTHER` returns the `double` alternative holding a NaN for every
buffer, the empty one included, and the result does not depend on the buffer. -/
theorem DeserializeAsVarType_OTHER (data : List Byte) :
    (∃ bits : Nat,
      DeserializeAsVarType .OTHER data = some (.double bits) ∧ isNaN64 bits) ∧
    (∀ other : List Byte,
      DeserializeAsVarType .OTHER other = DeserializeAsVarType .OTHER data) ∧
    DeserializeAsVarType .OTHER [] = DeserializeAsVarType .OTHER data :=
  ⟨⟨0x7FF8000000000000, rfl, by decide⟩, fun _ => rfl, rfl⟩

/-- C16. `RegistrationID` addition concatenates counts: after `a += b` the count of `a` is the
sum of both counts modulo `2 ^ 64`, `first_index` of `a` is unchanged, and `first_index` of `b`
plays no role. -/
theorem RegistrationID_addAssign (a b : RegistrationID) :
    (a.addAssign b).fields_count = (a.fields_count + b.fields_count) % 2 ^ 64 ∧
    (a.addAssign b).first_index = a.first_index ∧
    (∀ k : Nat, a.addAssign { b with first_index := k } = a.addAssign b) :=
  ⟨rfl, rfl, fun _ => rfl⟩

theorem DeserializeImpl_take (n : Nat) (d1 d2 : List Byte) (h : d1.take n = d2.take n) :
    DeserializeImpl n d1 = DeserializeImpl n d2 := by
  unfold DeserializeImpl
  have hlen : min n d1.length = min n d2.length := by
    rw [← List.length_take, ← List.length_take, h]
  by_cases h1 : n ≤ d1.length
  · have h2 : n ≤ d2.length := by omega
    rw [if_pos h1, if_pos h2, h]
  · have h2 : ¬ n ≤ d2.length := by omega
    rw [if_neg h1, if_neg h2]

theorem leValue_singleton_take (data : List Byte) (b : Byte) (h : data.head? = some b) :
    leValue (data.take 1) = b.val := by
  cases data with
  | nil => simp at h
  | cons x rest =>
    simp only [List.head?_cons, Option.some.injEq] at h
    simp [leValue, h]

theorem leValue_lt (l : List Byte) : leValue l < 256 ^ l.length := by
  induction l with
  | nil => simp [leValue]
  | cons b bs ih =>
    simp only [leValue, List.length_cons, pow_succ']
    have hb := b.isLt
    omega

theorem leBytes_leValue (l : List Byte) : leBytes l.length (leValue l) = l := by
  induction l with
  | nil => rfl
  | cons b bs ih =>
    have hb := b.isLt
    have hmod : (b.val + 256 * leValue bs) % 256 = b.val := by omega
    have hdiv : (b.val + 256 * leValue bs) / 256 = leValue bs := by omega
    simp only [leValue, List.length_cons, leBytes, hdiv, ih, List.cons.injEq, and_true]
    exact Fin.ext hmod

theorem leBytes_take (n : Nat) (data : List Byte) (h : n ≤ data.length) :
    leBytes n (leValue (data.take n)) = data.take n := by
  have hlen : (data.take n).length = n := by
    rw [List.length_take]
    omega
  have hkey := leBytes_leValue (data.take n)
  rw [hlen] at hkey
  exact hkey

theorem leValue_take_lt (n : Nat) (data : List Byte) : leValue (data.take n) < 256 ^ n := by
  have h1 := leValue_lt (data.take n)
  have h2 : (data.take n).length ≤ n := by
    rw [List.length_take]
    omega
  exact lt_of_lt_of_le h1 (Nat.pow_le_pow_right (by norm_num) h2)

theorem toSigned_bits (b : Nat) :
    (b < 256 ^ 1 → (toSigned 8 b % 2 ^ 8).toNat = b) ∧
    (b < 256 ^ 2 → (toSigned 16 b % 2 ^ 16).toNat = b) ∧
    (b < 256 ^ 4 → (toSigned 32 b % 2 ^ 32).toNat = b) ∧
    (b < 256 ^ 8 → (toSigned 64 b % 2 ^ 64).toNat = b) := by
  refine ⟨?_, ?_, ?_, ?_⟩ <;> intro h <;> unfold toSigned <;> norm_num at h ⊢ <;>
    split_ifs <;> omega

theorem toSigned_inRange (b : Nat) :
    (b < 256 ^ 1 → -(2 ^ 7) ≤ toSigned 8 b ∧ toSigned 8 b < 2 ^ 7) ∧
    (b < 256 ^ 2 → -(2 ^ 15) ≤ toSigned 16 b ∧ toSigned 16 b < 2 ^ 15) ∧
    (b < 256 ^ 4 → -(2 ^ 31) ≤ toSigned 32 b ∧ toSigned 32 b < 2 ^ 31) ∧
    (b < 256 ^ 8 → -(2 ^ 63) ≤ toSigned 64 b ∧ toSigned 64 b < 2 ^ 63) := by
  refine ⟨?_, ?_, ?_, ?_⟩ <;> intro h <;> unfold toSigned <;> norm_num at h ⊢ <;>
    split_ifs <;> omega

theorem DeserializeAsVarType_some (t : BasicType) (data : List Byte)
    (ht : t ≠ BasicType.OTHER) (hdata : holdsValue t data) :
    ∃ v : VarNumber, DeserializeAsVarType t data = some v ∧
      v.index = t.toIndex ∧ GetBasicType v = t ∧ v.inRange ∧
      leBytes (SizeOf t) v.bits = data.take (SizeOf t) := by
  obtain ⟨hlen, hbool⟩ := hdata
  cases t with
  | OTHER => exact absurd rfl ht
  | BOOL =>
    have hsz : 1 ≤ data.length := hlen
    have htake := leBytes_take 1 data hsz
    rcases hbool rfl with h | h
    · refine ⟨.bool false, ?_, rfl, rfl, trivial, ?_⟩
      · simp [DeserializeAsVarType, DeserializeImpl, hsz, leValue_singleton_take data 0 h]
      · rw [leValue_singleton_take data 0 h] at htake
        exact htake
    · refine ⟨.bool true, ?_, rfl, rfl, trivial, ?_⟩
      · simp [DeserializeAsVarType, DeserializeImpl, hsz, leValue_singleton_take data 1 h]
      · rw [leValue_singleton_take data 1 h] at htake
        exact htake
  | CHAR | UINT8 =>
    simp only [SizeOf, kSizes, BasicType.toIndex, List.get] at hlen ⊢
    simp only [DeserializeAsVarType, DeserializeImpl, if_pos hlen, Option.map_some']
    refine ⟨_, rfl, rfl, rfl, ?_, leBytes_take _ data hlen⟩
    simp only [VarNumber.inRange]
    have hlt := leValue_take_lt 1 data
    norm_num at hlt ⊢
    exact hlt
  | UINT16 =>
    simp only [SizeOf, kSizes, BasicType.toIndex, List.get] at hlen ⊢
    simp only [DeserializeAsVarType, DeserializeImpl, if_pos hlen, Option.map_some']
    refine ⟨_, rfl, rfl, rfl, ?_, leBytes_take _ data hlen⟩
    simp only [VarNumber.inRange]
    have hlt := leValue_take_lt 2 data
    norm_num at hlt ⊢
    exact hlt
  | UINT32 | FLOAT32 =>
    simp only [SizeOf, kSizes, BasicType.toIndex, List.get] at hlen ⊢
    simp only [DeserializeAsVarType, DeserializeImpl, if_pos hlen, Option.map_some']
    refine ⟨_, rfl, rfl, rfl, ?_, leBytes_take _ data hlen⟩
    simp only [VarNumber.inRange]
    have hlt := leValue_take_lt 4 data
    norm_num at hlt ⊢
    exact hlt
  | UINT64 | FLOAT64 =>
    simp only [SizeOf, kSizes, BasicType.toIndex, List.get] at hlen ⊢
    simp only [DeserializeAsVarType, DeserializeImpl, if_pos hlen, Option.map_some']
    refine ⟨_, rfl, rfl, rfl, ?_, leBytes_take _ data hlen⟩
    simp only [VarNumber.inRange]
    have hlt := leValue_take_lt 8 data
    norm_num at hlt ⊢
    exact hlt
  | INT8 =>
    simp only [SizeOf, kSizes, BasicType.toIndex, List.get] at hlen ⊢
    simp only [DeserializeAsVarType, DeserializeImpl, if_pos hlen, Option.map_some']
    refine ⟨_, rfl, rfl, rfl, (toSigned_inRange _).1 (leValue_take_lt 1 data), ?_⟩
    simp only [VarNumber.bits]
    rw [(toSigned_bits _).1 (leValue_take_lt 1 data)]
    exact leBytes_take _ data hlen
  | INT16 =>
    simp only [SizeOf, kSizes, BasicType.toIndex, List.get] at hlen ⊢
    simp only [DeserializeAsVarType, DeserializeImpl, if_pos hlen, Option.map_some']
    refine ⟨_, rfl, rfl, rfl, (toSigned_inRange _).2.1 (leValue_take_lt 2 data), ?_⟩
    simp only [VarNumber.bits]
    rw [(toSigned_bits _).2.1 (leValue_take_lt 2 data)]
    exact leBytes_take _ data hlen
  | INT32 =>
    simp only [SizeOf, kSizes, BasicType.toIndex, List.get] at hlen ⊢
    simp only [DeserializeAsVarType, DeserializeImpl, if_pos hlen, Option.map_some']
    refine ⟨_, rfl, rfl, rfl, (toSigned_inRange _).2.2.1 (leValue_take_lt 4 data), ?_⟩
    simp only [VarNumber.bits]
    rw [(toSigned_bits _).2.2.1 (leValue_take_lt 4 data)]
    exact leBytes_take _ data hlen
  | INT64 =>
    simp only [SizeOf, kSizes, BasicType.toIndex, List.get] at hlen ⊢
    simp only [DeserializeAsVarType, DeserializeImpl, if_pos hlen, Option.map_some']
    refine ⟨_, rfl, rfl, rfl, (toSigned_inRange _).2.2.2 (leValue_take_lt 8 data), ?_⟩
    simp only [VarNumber.bits]
    rw [(toSigned_bits _).2.2.2 (leValue_take_lt 8 data)]
    exact leBytes_take _ data hlen

/-- C19. Tag, width and variant agree: for a tag other than `OTHER` and a buffer holding a value
of its type, `DeserializeAsVarType` returns the alternative whose position in the variant is the
ordinal of the tag, so that `GetBasicType` of it is the tag; the value is one of its C++ type,
and its `SizeOf t` bytes are the first `SizeOf t` bytes of the buffer. The result is determined by exactly
these bytes: a buffer that agrees with this one on them gives the same result, and a buffer
holding a value that gives the same result agrees with this one on each of them. -/
theorem DeserializeAsVarType_tag (t : BasicType) (data : List Byte)
    (ht : t ≠ BasicType.OTHER) (hdata : holdsValue t data) :
    (∃ v : VarNumber, DeserializeAsVarType t data = some v ∧
      v.index = t.toIndex ∧ GetBasicType v = t ∧ v.inRange ∧
      leBytes (SizeOf t) v.bits = data.take (SizeOf t)) ∧
    (∀ other : List Byte, other.take (SizeOf t) = data.take (SizeOf t) →
      DeserializeAsVarType t other = DeserializeAsVarType t data) ∧
    (∀ other : List Byte, holdsValue t other →
      DeserializeAsVarType t other = DeserializeAsVarType t data →
      other.take (SizeOf t) = data.take (SizeOf t)) := by
  refine ⟨DeserializeAsVarType_some t data ht hdata, ?_, ?_⟩
  · intro other hother
    cases t with
    | OTHER => rfl
    | BOOL | CHAR | INT8 | UINT8 | INT16 | UINT16 | INT32 | UINT32 | INT64 | UINT64 | FLOAT32
    | FLOAT64 =>
      simp only [SizeOf, kSizes, BasicType.toIndex, List.get] at hother
      simp only [DeserializeAsVarType, DeserializeImpl_take _ other data hother]
  · intro other hother heq
    obtain ⟨v, hv, _, _, _, hbytes⟩ := DeserializeAsVarType_some t data ht hdata
    obtain ⟨w, hw, _, _, _, hbytes'⟩ := DeserializeAsVarType_some t other ht hother
    rw [hv, hw, Option.some.injEq] at heq
    rw [← hbytes, ← hbytes', heq]

/-- A buffer that starts with `FE FF FF FF` is read as the `int32_t` value `-2`, the
alternative at position 6, whatever follows these four bytes; a buffer that differs in the
fourth byte is read as another value. -/
theorem DeserializeAsVarType_tag_witness :
    BasicType.INT32 ≠ BasicType.OTHER ∧ holdsValue .INT32 [254, 255, 255, 255, 9] ∧
    DeserializeAsVarType .INT32 [254, 255, 255, 255, 9] = some (.int32 (-2)) ∧
    DeserializeAsVarType .INT32 [254, 255, 255, 255, 7, 7]
      = DeserializeAsVarType .INT32 [254, 255, 255, 255, 9] ∧
    DeserializeAsVarType .INT32 [254, 255, 255, 0, 9]
      ≠ DeserializeAsVarType .INT32 [254, 255, 255, 255, 9] :=
  ⟨by decide, by decide, by decide,
    (DeserializeAsVarType_tag .INT32 [254, 255, 255, 255, 9] (by decide) (by decide)).2.1
      [254, 255, 255, 255, 7, 7] (by decide),
    fun heq => absurd
      ((DeserializeAsVarType_tag .INT32 [254, 255, 255, 255, 9] (by decide) (by decide)).2.2
        [254, 255, 255, 0, 9] (by decide) heq)
      (by decide)⟩

theorem combine_lt (h x : Nat) (hh : h < 2 ^ 64) : combine h x < 2 ^ 64 := by
  unfold combine
  exact Nat.xor_lt_two_pow hh (Nat.mod_lt _ (by norm_num))

theorem combine_eq_iff (h x1 x2 : Nat) :
    combine h x1 = combine h x2 ↔ x1 % 2 ^ 64 = x2 % 2 ^ 64 := by
  unfold combine
  generalize (h <<< 6) % 2 ^ 64 = s
  generalize h >>> 2 = r
  constructor
  · intro heq
    have hinj := Nat.xor_right_injective heq
    omega
  · intro heq
    rw [heq]

theorem combine_surjective (h y : Nat) (hh : h < 2 ^ 64) (hy : y < 2 ^ 64) :
    ∃ v : Nat, v < 2 ^ 64 ∧ combine h v = y := by
  have hz : h ^^^ y < 2 ^ 64 := Nat.xor_lt_two_pow hh hy
  have hr : h >>> 2 < 2 ^ 64 := by
    rw [Nat.shiftRight_eq_div_pow]
    exact lt_of_le_of_lt (Nat.div_le_self _ _) hh
  have hs : (h <<< 6) % 2 ^ 64 < 2 ^ 64 := Nat.mod_lt _ (by norm_num)
  refine ⟨((h ^^^ y) + 3 * 2 ^ 64 - 0x9e3779b9 - (h <<< 6) % 2 ^ 64 - h >>> 2) % 2 ^ 64,
    Nat.mod_lt _ (by norm_num), ?_⟩
  unfold combine
  generalize (h <<< 6) % 2 ^ 64 = s at hs ⊢
  generalize h >>> 2 = r at hr ⊢
  generalize hzdef : h ^^^ y = z at hz ⊢
  have hE : ((((z + 3 * 2 ^ 64 - 0x9e3779b9 - s - r) % 2 ^ 64 % 2 ^ 64 + 0x9e3779b9) % 2 ^ 64
      + s) % 2 ^ 64 + r) % 2 ^ 64 = z := by
    omega
  rw [hE, ← hzdef, Nat.xor_cancel_left]

/-- C20. The hash combiner step is injective in the hash of the sub-value: for a 64-bit `h` the
map `v ↦ combine h v` sends 64-bit values to 64-bit values, one-to-one and onto; and for two
fields that differ only in `array_size`, `AddFieldToHash` gives equal results exactly when the
hashes of the two sizes, as 64-bit values, are equal. -/
theorem combine_bijective (hs : Hashers) (f1 f2 : Schema.Field) (h : Nat) (hh : h < 2 ^ 64)
    (hname : f1.name = f2.name) (htype : f1.type = f2.type)
    (hvector : f1.is_vector = f2.is_vector) (hcustom : f1.custom_type = f2.custom_type) :
    (∀ v : Nat, v < 2 ^ 64 → combine h v < 2 ^ 64) ∧
    (∀ v1 v2 : Nat, v1 < 2 ^ 64 → v2 < 2 ^ 64 → combine h v1 = combine h v2 → v1 = v2) ∧
    (∀ y : Nat, y < 2 ^ 64 → ∃ v : Nat, v < 2 ^ 64 ∧ combine h v = y) ∧
    (AddFieldToHash hs f1 h = AddFieldToHash hs f2 h ↔
      hs.uint_hasher f1.array_size % 2 ^ 64 = hs.uint_hasher f2.array_size % 2 ^ 64) := by
  refine ⟨fun v _ => combine_lt h v hh, ?_, fun y hy => combine_surjective h y hh hy, ?_⟩
  · intro v1 v2 h1 h2 heq
    have hmod := (combine_eq_iff h v1 v2).mp heq
    rwa [Nat.mod_eq_of_lt h1, Nat.mod_eq_of_lt h2] at hmod
  · unfold AddFieldToHash
    rw [hname, htype, hvector, hcustom]
    exact combine_eq_iff _ _ _

/-- From the hash `0`, the fields `float64[3] vect` and `float64[4] vect` get different hashes,
as the sizes 3 and 4 have different hashes. -/
theorem combine_bijective_witness :
    (0 : Nat) < 2 ^ 64 ∧
    AddFieldToHash exampleHashers
        { name := "vect", type := .FLOAT64, is_vector := true, array_size := 3 } 0
      ≠ AddFieldToHash exampleHashers
        { name := "vect", type := .FLOAT64, is_vector := true, array_size := 4 } 0 :=
  ⟨by norm_num, fun heq => absurd
    ((combine_bijective exampleHashers
        { name := "vect", type := .FLOAT64, is_vector := true, array_size := 3 }
        { name := "vect", type := .FLOAT64, is_vector := true, array_size := 4 }
        0 (by norm_num) rfl rfl rfl rfl).2.2.2.mp heq)
    (by decide)⟩

theorem not_contains_of_not_infix (text pattern : String)
    (h : ¬ pattern.toList <:+: text.toList) :
    ¬ ∃ pre post : String, text = pre ++ pattern ++ post := by
  rintro ⟨pre, post, heq⟩
  apply h
  refine ⟨pre.toList, post.toList, ?_⟩
  rw [heq]
  simp [String.toList, String.data_append]

set_option maxRecDepth 100000 in
theorem writeSchema_exampleCollisionSchema :
    writeSchema "" exampleCollisionSchema
      = "__version__: 3\n__hash__: 42\n__channel_name__: chan\n"
        ++ "Point3D point\nPoint3D other\n" := by
  decide

set_option maxRecDepth 100000 in
theorem writeSchema_exampleNullSchema :
    writeSchema "" exampleNullSchema
      = "__version__: 3\n__hash__: 42\n__channel_name__: chan\nPoint3D point\n" := by
  decide

set_option maxRecDepth 100000 in
theorem writeSchema_exampleUnterminatedSchema :
    writeSchema "" exampleUnterminatedSchema
      = "__version__: 3\n__hash__: 42\n__channel_name__: chan\nAlpha a\nBeta b\n"
        ++ "---------\nAlpha\n---------\nfloat32 x"
        ++ "---------\nBeta\n---------\nfloat32 y" := by
  decide

set_option maxRecDepth 100000 in
/-- C11, as stated, fails in two ways. In `exampleSchema` the field `b` of type `OTHER` is a
dynamic vector of `Point3D`, and the text has the line `Point3D[] b`, not `Point3D b`. In
`exampleCollisionSchema` the field `point` has a custom type `Point3D` with a schema text, but
a later field carries another custom type of that name with a null `typeSchema()`, and the text
has no `Point3D` block. -/
theorem custom_type_in_text_counterexample :
    (∃ field ∈ exampleSchema.fields, field.name = "b" ∧ field.type = BasicType.OTHER ∧
      field.custom_type = some examplePointA) ∧
    examplePointA.typeName = "Point3D" ∧
    examplePointA.typeSchema = some "float32 x\nfloat32 y\nfloat32 z\n" ∧
    (¬ ∃ pre post : String, writeSchema "" exampleSchema = pre ++ "Point3D b\n" ++ post) ∧
    (∃ field ∈ exampleCollisionSchema.fields, field.name = "point" ∧
      field.type = BasicType.OTHER ∧ field.custom_type = some examplePointA) ∧
    (¬ ∃ pre post : String, writeSchema "" exampleCollisionSchema
        = pre ++ "---------\nPoint3D\n---------\nfloat32 x\nfloat32 y\nfloat32 z\n" ++ post) := by
  refine ⟨⟨_, List.mem_cons_of_mem _ (List.mem_cons_of_mem _ (List.mem_cons_of_mem _
      (List.mem_cons_self _ _))), rfl, rfl, rfl⟩, rfl, rfl, ?_,
    ⟨_, List.mem_cons_self _ _, rfl, rfl, rfl⟩, ?_⟩
  · apply not_contains_of_not_infix
    rw [writeSchema_exampleSchema]
    decide
  · apply not_contains_of_not_infix
    rw [writeSchema_exampleCollisionSchema]
    decide

theorem writeField_custom (field : Schema.Field) (ct : CustomTypeInfo)
    (htype : field.type = BasicType.OTHER) (hct : field.custom_type = some ct) :
    writeField "" field = ct.typeName ++ specArraySuffix field ++ " " ++ field.name := by
  unfold writeField specArraySuffix
  rw [hct]
  simp only [htype, if_true, String.empty_append]
  cases hv : field.is_vector
  · simp
  · by_cases hz : field.array_size = 0
    · simp [hz]
    · simp [hz, String.append_assoc]

theorem concatAll_map_split {α : Type} (g : α → String) (before after : List α) (x : α) :
    concatAll ((before ++ x :: after).map g)
      = concatAll (before.map g) ++ g x ++ concatAll (after.map g) := by
  rw [List.map_append, concatAll_append, List.map_cons, concatAll, String.append_assoc]

theorem customBlocks_mem (fields : List Schema.Field) (name body : String)
    (href : ∃ f ∈ fields, ∃ ct, f.custom_type = some ct ∧ ct.typeName = name)
    (hsame : ∀ g ∈ fields, ∀ ct, g.custom_type = some ct → ct.typeName = name →
      ct.typeSchema = some body) :
    (name, body) ∈ customBlocks fields := by
  have hkey : name ∈ (customTypesOf fields).map Prod.fst := by
    unfold customTypesOf
    rw [foldl_customTypesStep_keys]
    exact Or.inr href
  obtain ⟨p, hp, hp1⟩ := List.mem_map.mp hkey
  obtain ⟨hname, g, hg, hgc⟩ := customTypesOf_entry fields p hp
  have hpn : p.2.typeName = name := by rw [← hname, hp1]
  have hbody := hsame g hg p.2 hgc hpn
  unfold customBlocks
  rw [List.mem_filterMap]
  exact ⟨p, hp, by rw [hbody, Option.map_some', hpn]⟩

/-- C11, amended. Custom type in schema text: for a schema with a field named `n` of type
`OTHER` whose custom type has name `T`, where every custom type named `T` set on a field of the
schema, that of the field among them, has the schema text `B`, the text contains the line of the field,
`T n` for a scalar, `T[] n` for a dynamic vector, `T[N] n` for a fixed array, and at a later
position the block `---------\nT\n---------\n` immediately followed by `B`. -/
theorem custom_type_in_text (schema : Schema) (field : Schema.Field) (ct : CustomTypeInfo)
    (body : String) (hfield : field ∈ schema.fields) (htype : field.type = BasicType.OTHER)
    (hct : field.custom_type = some ct)
    (hsame : ∀ g ∈ schema.fields, ∀ ct', g.custom_type = some ct' →
      ct'.typeName = ct.typeName → ct'.typeSchema = some body) :
    (∃ pre mid post : String,
      writeSchema "" schema
        = pre ++ (ct.typeName ++ specArraySuffix field ++ " " ++ field.name ++ "\n") ++ mid
          ++ ("---------\n" ++ ct.typeName ++ "\n" ++ "---------\n" ++ body) ++ post) ∧
    (field.is_vector = false →
      ct.typeName ++ specArraySuffix field ++ " " ++ field.name ++ "\n"
        = ct.typeName ++ " " ++ field.name ++ "\n") := by
  constructor
  · have hblock : (ct.typeName, body) ∈ customBlocks schema.fields :=
      customBlocks_mem schema.fields ct.typeName body ⟨field, hfield, ct, hct, rfl⟩ hsame
    obtain ⟨f1, f2, hf⟩ := List.append_of_mem hfield
    obtain ⟨b1, b2, hb⟩ := List.append_of_mem hblock
    refine ⟨"__version__: 3\n" ++ ("__hash__: " ++ toString schema.hash ++ "\n")
        ++ ("__channel_name__: " ++ schema.channel_name ++ "\n")
        ++ concatAll (f1.map fun field => writeField "" field ++ "\n"),
      concatAll (f2.map fun field => writeField "" field ++ "\n")
        ++ concatAll (b1.map blockText),
      concatAll (b2.map blockText), ?_⟩
    rw [writeSchema_eq, hb, concatAll_map_split]
    unfold specSchemaHead
    rw [hf, concatAll_map_split, writeField_custom field ct htype hct]
    simp only [blockText, String.append_assoc, String.empty_append]
  · intro hv
    simp [specArraySuffix, hv]

/-- In `exampleSchema` the scalar field `a` of type `Point3D` gives the line `Point3D a` and the
`Point3D` block. -/
theorem custom_type_in_text_witness :
    ∃ pre mid post : String,
      writeSchema "" exampleSchema
        = pre ++ ("Point3D" ++ "" ++ " " ++ "a" ++ "\n") ++ mid
          ++ ("---------\n" ++ "Point3D" ++ "\n" ++ "---------\n"
              ++ "float32 x\nfloat32 y\nfloat32 z\n") ++ post :=
  (custom_type_in_text exampleSchema
    { name := "a", type := .OTHER, custom_type := some examplePointA } examplePointA
    "float32 x\nfloat32 y\nfloat32 z\n"
    (List.mem_cons_of_mem _ (List.mem_cons_self _ _)) rfl rfl
    (by
      intro g hg ct' hct' hname
      simp only [exampleSchema, List.mem_cons, List.mem_singleton, List.not_mem_nil,
        or_false] at hg
      rcases hg with h | h | h | h | h <;> subst h <;> simp at hct' <;> subst hct' <;>
        first
        | rfl
        | exact absurd hname (by decide))).1

set_option maxRecDepth 100000 in
/-- C12, as stated, fails: the only field of `exampleNullSchema` has a custom type `Point3D`
with a null `typeSchema()`, and the text is the header and the field line, without separator or
name line. -/
theorem null_schema_counterexample :
    (∃ field ∈ exampleNullSchema.fields, field.custom_type = some examplePointB) ∧
    examplePointB.typeName = "Point3D" ∧ examplePointB.typeSchema = none ∧
    (¬ ∃ pre post : String,
      writeSchema "" exampleNullSchema = pre ++ "---------\nPoint3D\n---------\n" ++ post) := by
  refine ⟨⟨_, List.mem_cons_self _ _, rfl⟩, rfl, rfl, ?_⟩
  apply not_contains_of_not_infix
  rw [writeSchema_exampleNullSchema]
  decide

/-- C12, amended. Null custom schema: when every custom type of a given name set on a field of
the schema has a null `typeSchema()`, the text has no block of that name, neither separators nor
name line nor body: it is the head followed by the blocks of `customBlocks`, none of which has
that name. When all custom types of the schema have a null `typeSchema()`, the text is the head
alone. -/
theorem null_schema_no_block (schema : Schema) (name : String)
    (hnull : ∀ f ∈ schema.fields, ∀ ct, f.custom_type = some ct → ct.typeName = name →
      ct.typeSchema = none) :
    (∀ os : String, writeSchema os schema
      = os ++ specSchemaHead schema
          ++ concatAll ((customBlocks schema.fields).map fun block =>
              "---------\n" ++ block.1 ++ "\n" ++ "---------\n" ++ block.2)) ∧
    name ∉ (customBlocks schema.fields).map Prod.fst ∧
    ((∀ f ∈ schema.fields, ∀ ct, f.custom_type = some ct → ct.typeSchema = none) →
      ∀ os : String, writeSchema os schema = os ++ specSchemaHead schema) := by
  refine ⟨fun os => writeSchema_eq os schema, ?_, ?_⟩
  · intro hmem
    obtain ⟨block, hblock, hname⟩ := List.mem_map.mp hmem
    obtain ⟨f, hf, ct, hfc, hctn, hcts⟩ := customBlocks_origin schema.fields block hblock
    have hnone := hnull f hf ct hfc (by rw [hctn, hname])
    rw [hnone] at hcts
    exact absurd hcts (by simp)
  · intro hall os
    have hempty : customBlocks schema.fields = [] := by
      apply List.eq_nil_iff_forall_not_mem.mpr
      intro block hblock
      obtain ⟨f, hf, ct, hfc, _, hcts⟩ := customBlocks_origin schema.fields block hblock
      rw [hall f hf ct hfc] at hcts
      exact absurd hcts (by simp)
    rw [writeSchema_eq, hempty]
    simp [concatAll]

/-- In `exampleNullSchema` the type `Point3D` has a null schema: no block is named `Point3D`. -/
theorem null_schema_no_block_witness :
    (∀ f ∈ exampleNullSchema.fields, ∀ ct, f.custom_type = some ct → ct.typeName = "Point3D" →
      ct.typeSchema = none) ∧
    "Point3D" ∉ (customBlocks exampleNullSchema.fields).map Prod.fst :=
  have hnull : ∀ f ∈ exampleNullSchema.fields, ∀ ct, f.custom_type = some ct →
      ct.typeName = "Point3D" → ct.typeSchema = none := by
    intro f hf ct hct _
    simp only [exampleNullSchema, List.mem_singleton] at hf
    subst hf
    simp at hct
    subst hct
    rfl
  ⟨hnull, (null_schema_no_block exampleNullSchema "Point3D" hnull).2.1⟩

theorem endsWithLF_append (a b : String) (hb : endsWithLF b) : endsWithLF (a ++ b) := by
  unfold endsWithLF at hb ⊢
  simp only [String.toList, String.data_append] at hb ⊢
  rw [List.getLast?_append, hb]
  rfl

theorem endsWithLF_newline (a : String) : endsWithLF (a ++ "\n") :=
  endsWithLF_append a "\n" (by decide)

theorem endsWithLF_lines (fields : List Schema.Field) (text : String) (htext : endsWithLF text) :
    endsWithLF (text ++ concatAll (fields.map fun field => writeField "" field ++ "\n")) := by
  induction fields generalizing text with
  | nil => simpa [concatAll] using htext
  | cons field rest ih =>
    simp only [List.map_cons, concatAll]
    rw [← String.append_assoc]
    exact ih _ (endsWithLF_append _ _ (endsWithLF_newline _))

theorem endsWithLF_specSchemaHead (schema : Schema) : endsWithLF (specSchemaHead schema) := by
  unfold specSchemaHead
  apply endsWithLF_lines
  exact endsWithLF_append _ _ (endsWithLF_newline _)

theorem endsWithLF_blockText (text : String) (block : String × String)
    (hblock : block.2 = "" ∨ endsWithLF block.2) : endsWithLF (text ++ blockText block) := by
  unfold blockText
  rcases hblock with h | h
  · rw [h, String.append_empty]
    exact endsWithLF_append _ _ (endsWithLF_append _ _ (by decide))
  · exact endsWithLF_append _ _ (endsWithLF_append _ _ h)

theorem endsWithLF_blocks (blocks : List (String × String)) (text : String)
    (htext : endsWithLF text)
    (hblocks : ∀ block ∈ blocks, block.2 = "" ∨ endsWithLF block.2) :
    endsWithLF (text ++ concatAll (blocks.map blockText)) := by
  induction blocks generalizing text with
  | nil => simpa [concatAll] using htext
  | cons block rest ih =>
    simp only [List.map_cons, concatAll]
    rw [← String.append_assoc]
    exact ih _ (endsWithLF_blockText text block (hblocks block (List.mem_cons_self _ _)))
      fun b hb => hblocks b (List.mem_cons_of_mem _ hb)

set_option maxRecDepth 100000 in
/-- C13, as stated, fails: the custom types of `exampleUnterminatedSchema` have schema texts
without a final line feed, so the text ends with `float32 y`, and the separator that opens the
`Beta` block follows `float32 x` on the same line. -/
theorem writeSchema_lines_counterexample :
    ¬ endsWithLF (writeSchema "" exampleUnterminatedSchema) ∧
    writeSchema "" exampleUnterminatedSchema
      = ("__version__: 3\n__hash__: 42\n__channel_name__: chan\nAlpha a\nBeta b\n"
          ++ "---------\nAlpha\n---------\nfloat32 x")
        ++ ("---------\n" ++ "Beta" ++ "\n" ++ "---------\n" ++ "float32 y") ∧
    ¬ endsWithLF ("__version__: 3\n__hash__: 42\n__channel_name__: chan\nAlpha a\nBeta b\n"
          ++ "---------\nAlpha\n---------\nfloat32 x") := by
  rw [writeSchema_exampleUnterminatedSchema]
  decide

/-- C13, amended. The textual schema is made of LF-terminated lines when the custom schema
texts are: for a schema in which every non-null `typeSchema()` of a custom type set on a field is
empty or ends with a line feed, the text written ends with a line feed, and each block is
written after a text that ends with a line feed, as is the second separator of the block. -/
theorem writeSchema_lines (schema : Schema)
    (hbodies : ∀ f ∈ schema.fields, ∀ ct body, f.custom_type = some ct →
      ct.typeSchema = some body → body = "" ∨ endsWithLF body) :
    endsWithLF (writeSchema "" schema) ∧
    ∀ (before after : List (String × String)) (block : String × String),
      customBlocks schema.fields = before ++ block :: after →
      writeSchema "" schema
        = (specSchemaHead schema ++ concatAll (before.map blockText))
          ++ "---------\n" ++ (block.1 ++ "\n") ++ "---------\n" ++ block.2
          ++ concatAll (after.map blockText) ∧
      endsWithLF (specSchemaHead schema ++ concatAll (before.map blockText)) ∧
      endsWithLF ((specSchemaHead schema ++ concatAll (before.map blockText))
          ++ "---------\n" ++ (block.1 ++ "\n")) := by
  have hblocks : ∀ block ∈ customBlocks schema.fields, block.2 = "" ∨ endsWithLF block.2 := by
    intro block hblock
    obtain ⟨f, hf, ct, hfc, _, hcts⟩ := customBlocks_origin schema.fields block hblock
    exact hbodies f hf ct block.2 hfc hcts
  constructor
  · rw [writeSchema_eq, String.empty_append]
    exact endsWithLF_blocks _ _ (endsWithLF_specSchemaHead schema) hblocks
  · intro before after block hsplit
    refine ⟨?_, ?_, ?_⟩
    · rw [writeSchema_eq, hsplit, concatAll_map_split]
      simp only [blockText, String.append_assoc, String.empty_append]
    · apply endsWithLF_blocks _ _ (endsWithLF_specSchemaHead schema)
      intro b hb
      exact hblocks b (by rw [hsplit]; exact List.mem_append_left _ hb)
    · exact endsWithLF_append _ _ (endsWithLF_newline _)

/-- The text of `exampleSchema`, whose custom schema texts end with a line feed, ends with a
line feed. -/
theorem writeSchema_lines_witness :
    (∀ f ∈ exampleSchema.fields, ∀ ct body, f.custom_type = some ct →
      ct.typeSchema = some body → body = "" ∨ endsWithLF body) ∧
    endsWithLF (writeSchema "" exampleSchema) :=
  have hbodies : ∀ f ∈ exampleSchema.fields, ∀ ct body, f.custom_type = some ct →
      ct.typeSchema = some body → body = "" ∨ endsWithLF body := by
    intro f hf ct body hct hbody
    simp only [exampleSchema, List.mem_cons, List.mem_singleton, List.not_mem_nil,
      or_false] at hf
    rcases hf with h | h | h | h | h <;> subst h <;> simp at hct <;> subst hct <;>
      simp [examplePose, examplePointA] at hbody <;> subst hbody <;>
      exact Or.inr (by decide)
  ⟨hbodies, (writeSchema_lines exampleSchema hbodies).1⟩

theorem setRange_count_zero (metas : List FieldMeta) (first : Nat) (enable : Bool) :
    setRange metas first 0 enable = metas := by
  induction metas generalizing first with
  | nil => cases first <;> rfl
  | cons entry rest ih =>
    cases first with
    | zero => rfl
    | succ first => simp only [setRange, ih]

theorem setRange_one_enabled (metas : List FieldMeta) (i : Nat) (enable : Bool) :
    (setRange metas i 1 enable).map (fun entry => entry.enabled)
      = (metas.map fun entry => entry.enabled).set i enable := by
  induction metas generalizing i with
  | nil => cases i <;> rfl
  | cons entry rest ih =>
    cases i with
    | zero => simp [setRange, setRange_count_zero]
    | succ i => simp [setRange, ih]

theorem setRange_restore (metas : List FieldMeta) (i : Nat) (entry : FieldMeta)
    (hget : metas[i]? = some entry) (henabled : entry.enabled = true) :
    setRange (setRange metas i 1 false) i 1 true = metas := by
  induction metas generalizing i with
  | nil => simp at hget
  | cons first rest ih =>
    cases i with
    | zero =>
      simp only [List.getElem?_cons_zero, Option.some.injEq] at hget
      subst hget
      simp only [setRange, setRange_count_zero, List.cons.injEq, and_true]
      cases first
      simp only [FieldMeta.mk.injEq, true_and]
      exact henabled.symm
    | succ i =>
      simp only [List.getElem?_cons_succ] at hget
      simp only [setRange, ih i hget]

theorem payloadOf_all_enabled (metas : List FieldMeta)
    (hall : ∀ entry ∈ metas, entry.enabled = true) :
    (payloadOf metas).length = (metas.map fun entry => entry.value.serializedSize).sum := by
  induction metas with
  | nil => rfl
  | cons first rest ih =>
    have hfirst := hall first (List.mem_cons_self _ _)
    have hrest := ih fun entry hentry => hall entry (List.mem_cons_of_mem _ hentry)
    simp only [payloadOf, hfirst, if_true, List.length_append, hrest, List.map_cons,
      List.sum_cons, ValueRef.serializedSize]

theorem payloadOf_disable (metas : List FieldMeta) (i : Nat) (entry : FieldMeta)
    (hget : metas[i]? = some entry) (henabled : entry.enabled = true) :
    (payloadOf (setRange metas i 1 false)).length + entry.value.serializedSize
      = (payloadOf metas).length := by
  induction metas generalizing i with
  | nil => simp at hget
  | cons first rest ih =>
    cases i with
    | zero =>
      simp only [List.getElem?_cons_zero, Option.some.injEq] at hget
      subst hget
      simp only [setRange, setRange_count_zero, payloadOf, henabled, if_true,
        List.length_append, ValueRef.serializedSize]
      simp only [Bool.false_eq_true, if_false]
      omega
    | succ i =>
      simp only [List.getElem?_cons_succ] at hget
      have hrec := ih i hget
      simp only [setRange, payloadOf]
      split_ifs
      · simp only [List.length_append]
        omega
      · exact hrec

theorem map_enabled_all (metas : List FieldMeta)
    (hall : ∀ entry ∈ metas, entry.enabled = true) :
    (metas.map fun entry => entry.enabled) = List.replicate metas.length true := by
  induction metas with
  | nil => rfl
  | cons first rest ih =>
    simp only [List.map_cons, List.length_cons, List.replicate_succ,
      hall first (List.mem_cons_self _ _),
      ih fun entry hentry => hall entry (List.mem_cons_of_mem _ hentry)]

theorem activeMask_all_enabled :
    ∀ n < 9, 0 < n → (activeMask (List.replicate n true))[0]? = some 0xFF := by
  decide

theorem activeMask_one_disabled :
    ∀ n < 9, ∀ i < n,
      (activeMask ((List.replicate n true).set i false))[0]? = some (0xFF ^^^ (1 <<< i)) := by
  decide

/-- C17. Active mask and payload under enable and disable: on a channel with between one and
eight fields, all enabled, a snapshot has `active_mask[0] = 0xFF` and a payload as long as the
sum of the serialised sizes of the fields; with field `i` alone disabled, the next snapshot has
`active_mask[0]` equal to `0xFF` with bit `i` cleared and a payload shorter by the serialised
size of field `i`; after the field is enabled again, the snapshot has the first mask and
payload. -/
theorem snapshot_enable_disable (channel : Channel) (t0 t1 t2 : Int)
    (hpos : 0 < channel.fields_meta.length) (hle : channel.fields_meta.length ≤ 8)
    (hall : ∀ entry ∈ channel.fields_meta, entry.enabled = true) :
    (takeSnapshot channel t0).2.active_mask[0]? = some 0xFF ∧
    (takeSnapshot channel t0).2.payload.length
      = (channel.fields_meta.map fun entry => entry.value.serializedSize).sum ∧
    ∀ (i : Nat) (entry : FieldMeta), channel.fields_meta[i]? = some entry →
      (takeSnapshot
          (setEnabled (takeSnapshot channel t0).1 { first_index := i, fields_count := 1 } false)
          t1).2.active_mask[0]? = some (0xFF ^^^ (1 <<< i)) ∧
      (takeSnapshot
          (setEnabled (takeSnapshot channel t0).1 { first_index := i, fields_count := 1 } false)
          t1).2.payload.length + entry.value.serializedSize
        = (takeSnapshot channel t0).2.payload.length ∧
      (takeSnapshot
          (setEnabled
            (takeSnapshot
              (setEnabled (takeSnapshot channel t0).1
                { first_index := i, fields_count := 1 } false) t1).1
            { first_index := i, fields_count := 1 } true) t2).2.active_mask
        = (takeSnapshot channel t0).2.active_mask ∧
      (takeSnapshot
          (setEnabled
            (takeSnapshot
              (setEnabled (takeSnapshot channel t0).1
                { first_index := i, fields_count := 1 } false) t1).1
            { first_index := i, fields_count := 1 } true) t2).2.payload
        = (takeSnapshot channel t0).2.payload := by
  have hmap := map_enabled_all channel.fields_meta hall
  refine ⟨?_, ?_, ?_⟩
  · simp only [takeSnapshot, hmap]
    exact activeMask_all_enabled _ (by omega) hpos
  · simp only [takeSnapshot]
    exact payloadOf_all_enabled channel.fields_meta hall
  · intro i entry hget
    have hi : i < channel.fields_meta.length := by
      rcases List.getElem?_eq_some_iff.mp hget with ⟨h, _⟩
      exact h
    have hentry : entry.enabled = true := hall entry (List.getElem?_mem hget)
    simp only [takeSnapshot, setEnabled]
    refine ⟨?_, payloadOf_disable channel.fields_meta i entry hget hentry, ?_, ?_⟩
    · rw [setRange_one_enabled, hmap]
      exact activeMask_one_disabled _ (by omega) i hi
    · rw [setRange_restore channel.fields_meta i entry hget hentry]
    · rw [setRange_restore channel.fields_meta i entry hget hentry]

/-- The checks of `TEST(DataTamer, Disable)`: with seven fields the first mask byte is
`0b11111111` and the payload has 63 bytes; with the last field `v7` disabled the byte is
`0b10111111` and the payload has 43 bytes. -/
theorem snapshot_enable_disable_witness :
    0 < exampleDisableChannel.fields_meta.length ∧
    exampleDisableChannel.fields_meta.length ≤ 8 ∧
    (takeSnapshot exampleDisableChannel 0).2.active_mask[0]? = some 0b11111111 ∧
    (takeSnapshot exampleDisableChannel 0).2.payload.length = 63 ∧
    (takeSnapshot
        (setEnabled (takeSnapshot exampleDisableChannel 0).1
          { first_index := 6, fields_count := 1 } false) 1).2.active_mask[0]?
      = some 0b10111111 ∧
    (takeSnapshot
        (setEnabled (takeSnapshot exampleDisableChannel 0).1
          { first_index := 6, fields_count := 1 } false) 1).2.payload.length = 43 :=
  have hall : ∀ entry ∈ exampleDisableChannel.fields_meta, entry.enabled = true := by
    intro entry hentry
    simp only [exampleDisableChannel, registerValue, findByName] at hentry
    simp at hentry
    rcases hentry with h | h | h | h | h | h | h <;> subst h <;> rfl
  ⟨by decide, by decide,
    (snapshot_enable_disable exampleDisableChannel 0 1 2 (by decide) (by decide) hall).1,
    by decide,
    ((snapshot_enable_disable exampleDisableChannel 0 1 2 (by decide) (by decide) hall).2.2 6
      { value := { type := .FLOAT32, is_vector := true, wire := leBytes 4 4 ++ leBytes 16 0 } }
      rfl).1,
    by decide⟩

end DataTamer
